import Mathlib

/-!
# The updater's entry point (`src/main.cpp`)

A shallow embedding of `main`, `unpackBundle`, `runUpdaterThread` and the three
platform variants of `runWithUi`.

Every function is embedded as the sequence of calls it makes on the objects it
drives (the installer, the script, the dialogs, the worker thread, the log),
each tagged with the thread making it, together with the way the function
ends: by returning, or by an exception leaving it.  What the collaborators
answer (the parsed options, the result of parsing the manifest, whether GTK
could be initialised, how `UpdateInstaller::run` ends, how the scheduler
orders the two threads) is input, gathered in `Env`.
-/

namespace Updater

/-! ## Data -/

/-- The three builds selected by `PLATFORM_LINUX`, `PLATFORM_MAC`, `PLATFORM_WINDOWS`. -/
inductive Platform where
  | Linux
  | Mac
  | Windows
  deriving DecidableEq, Repr

/-- Modelled from the spec: the enumeration `UpdateInstaller::Mode`, declared in
`UpdateInstaller.h`; `main.cpp` names only its value `UpdateInstaller::Main`, the
spec gives the values as `Main` and `Helper`. -/
inductive Mode where
  | Main
  | Helper
  deriving DecidableEq, Repr

/-- Modelled from the spec: the three ways `UpdateScript::parse` can reject a
manifest (`UpdateScript.h` is not part of the sources at hand). -/
inductive ScriptParseError where
  | UnknownOperation
  | InvalidPath
  | MissingField
  deriving DecidableEq, Repr

/-- What the object `UpdateScript script` of `main` holds: nothing yet (line 116),
or what `parse` left in it for the manifest at a path (line 120). -/
inductive ScriptState where
  | defaultConstructed
  | parsed (manifest : String) (error : Option ScriptParseError)
  deriving DecidableEq, Repr

/-- How a call of `UpdateInstaller::run` ends: it returns, having reported success
or failure to its observer, or an exception leaves it, of a class derived from
`std::exception` (with its `what()`) or of any other type. -/
inductive RunOutcome where
  | success
  | failure
  | throwsStd (what : String)
  | throwsOther
  deriving DecidableEq, Repr

/-- The two threads of the process. -/
inductive Thread where
  | main
  | worker
  deriving DecidableEq, Repr

/-- The dialog classes instantiated by the variants of `runWithUi`. -/
inductive DialogKind where
  | Ascii
  | Gtk
  | Cocoa
  | Win32
  deriving DecidableEq, Repr

/-- The fields of `UpdaterOptions` read by `main`. -/
structure UpdaterOptions where
  mode : Mode
  installDir : String
  packageDir : String
  scriptPath : String
  waitPid : Int
  showVersion : Bool
  forceElevated : Bool
  deriving DecidableEq, Repr

/-- The calls made by the code of `main.cpp`, with their arguments, named after the
function called: `createAutoreleasePool` and `releaseAutoreleasePool` of `UpdateDialogCocoa`,
`Log::open`, the `LOG` statements at level `Info` and `Error` with their message,
`MacBundle::create`, `ProcessUtils::runSync` with its argument list, `UpdaterOptions::parse`,
the output of a line on `std::cout`, `UpdateScript::parse` with the path it is given, the
setters of `UpdateInstaller` with the value they are given, `UpdateInstaller::run`, `init`
(`gtkInit` for the GTK wrapper, with its result) and `exec` of a dialog, the constructor of
`tthread::thread` (`threadStart`) and `join`, recorded when it returns (`threadJoin`).
The construction of the local objects `installer`, `script` and of the dialogs, and the
destruction of the dialogs when `runWithUi` returns, are recorded as calls too;
`abort` is the end of the process through `std::terminate` when an exception is left
uncaught. -/
inductive Call where
  | createAutoreleasePool
  | releaseAutoreleasePool
  | logOpen
  | logInfo (message : String)
  | logError (message : String)
  | bundleCreate
  | runSync (args : List String)
  | optionsParse
  | print (text : String)
  | installerNew
  | scriptNew
  | scriptParse (manifest : String)
  | setMode (mode : Mode)
  | setInstallDir (dir : String)
  | setPackageDir (dir : String)
  | setScript (script : ScriptState)
  | setWaitPid (pid : Int)
  | setForceElevated (flag : Bool)
  | setObserver (dialog : DialogKind)
  | run
  | dialogNew (dialog : DialogKind)
  | gtkInit (ok : Bool)
  | dialogInit (dialog : DialogKind)
  | dialogExec (dialog : DialogKind)
  | dialogDelete (dialog : DialogKind)
  | threadStart
  | threadJoin
  | abort
  deriving DecidableEq, Repr

/-- A call together with the thread that makes it. -/
abbrev Event := Thread × Call

/-- How a function ends. -/
inductive Completion where
  | returned
  | escaped
  deriving DecidableEq, Repr

/-- Everything `main.cpp` obtains from outside. -/
structure Env where
  /-- The build. -/
  platform : Platform
  /-- The command line, `argv[0]` first. -/
  argv : List String
  /-- Mac: the test of line 67, the executable already lies inside the bundle. -/
  inBundle : Bool
  /-- Mac: `bundle.bundlePath()`. -/
  bundlePath : String
  /-- What `options.parse(argc,argv)` stores in `options`. -/
  options : UpdaterOptions
  /-- The function `FileUtils::makeAbsolute(path, basePath)`. -/
  makeAbsolute : String → String → String
  /-- What `UpdateScript::parse` finds wrong with the manifest at a path, if anything. -/
  parseManifest : String → Option ScriptParseError
  /-- The function `intToStr` of `StringUtils.h`. -/
  intToStr : Int → String
  /-- The integer value of a mode. -/
  modeValue : Mode → Int
  /-- Linux: the result of `dialog.init(argc,argv)` on the GTK wrapper. -/
  gtkInit : Bool
  /-- How `UpdateInstaller::run` ends. -/
  runOutcome : RunOutcome
  /-- The scheduler: at each step, `true` lets the worker make its next call and
  `false` lets the main thread make its next call. -/
  schedule : List Bool

/-- What a process run amounts to: the calls made, in order, and the value returned
by `main`, or `none` when the process ended in `std::terminate` instead. -/
structure Outcome where
  trace : List Event
  exit : Option Int

/-! ## The code -/

/-- The macro `UPDATER_VERSION` (line 28). -/
def UPDATER_VERSION : String := "0.6"

/-- The calls of a list, made by the thread `t`. -/
def onThread (t : Thread) (cs : List Call) : List Event := cs.map (fun c => (t, c))

/-- `runUpdaterThread` (lines 32-53): the calls it makes and how it ends. The handler
of line 45 takes exceptions of classes derived from `std::exception` only. -/
def runUpdaterThread (p : Platform) (o : RunOutcome) : List Call × Completion :=
  let acquire := if p = Platform.Mac then [Call.createAutoreleasePool] else []
  let release := if p = Platform.Mac then [Call.releaseAutoreleasePool] else []
  match o with
  | RunOutcome.success => (acquire ++ [Call.run] ++ release, Completion.returned)
  | RunOutcome.failure => (acquire ++ [Call.run] ++ release, Completion.returned)
  | RunOutcome.throwsStd what =>
      (acquire ++ [Call.run, Call.logError ("Unexpected exception " ++ what)] ++ release,
        Completion.returned)
  | RunOutcome.throwsOther => (acquire ++ [Call.run], Completion.escaped)

/-- `unpackBundle` (lines 62-86): the calls it makes and its result. -/
def unpackBundle (env : Env) : List Call × Bool :=
  if env.inBundle then ([], false)
  else
    ([Call.logInfo ("Creating bundle " ++ env.bundlePath), Call.bundleCreate,
      Call.runSync (env.argv.drop 1)], true)

/-- The calls of two threads running side by side, in the order the scheduler lets
them happen. -/
def interleave : List Bool → List Event → List Event → List Event
  | _, [], ms => ms
  | _, ws, [] => ws
  | [], ws, ms => ws ++ ms
  | true :: s, w :: ws, ms => w :: interleave s ws ms
  | false :: s, ws, m :: ms => m :: interleave s ws ms

/-- The calls up to and including the first `abort`: the process ends there. -/
def untilAbort : List Event → List Event
  | [] => []
  | e :: es => if e.2 = Call.abort then [e] else e :: untilAbort es

/-- The part common to the three variants of `runWithUi`: `before` are the calls of the
main thread up to the construction of `updaterThread`, which starts the worker on
`runUpdaterThread`; `during` are its calls between that and `updaterThread.join()`, made
while the worker runs, in an order fixed by the scheduler; `after` are the destructors run
when the function returns. `join` returns once the worker has left `runUpdaterThread`; an
exception leaving the function of the worker ends the process, whatever the main thread
had left to do. -/
def withWorker (env : Env) (before during after : List Call) : List Event × Completion :=
  let w := runUpdaterThread env.platform env.runOutcome
  match w.2 with
  | Completion.returned =>
      (onThread Thread.main (before ++ [Call.threadStart])
          ++ interleave env.schedule (onThread Thread.worker w.1) (onThread Thread.main during)
          ++ onThread Thread.main (Call.threadJoin :: after),
        Completion.returned)
  | Completion.escaped =>
      (onThread Thread.main (before ++ [Call.threadStart])
          ++ untilAbort (interleave env.schedule
              (onThread Thread.worker (w.1 ++ [Call.abort])) (onThread Thread.main during)),
        Completion.escaped)

/-- `runWithUi`, Linux (lines 153-173). -/
def runWithUiLinux (env : Env) : List Event × Completion :=
  if env.gtkInit then
    withWorker env
      [Call.dialogNew DialogKind.Ascii, Call.dialogNew DialogKind.Gtk, Call.gtkInit true,
        Call.setObserver DialogKind.Gtk]
      [Call.dialogExec DialogKind.Gtk]
      [Call.dialogDelete DialogKind.Gtk, Call.dialogDelete DialogKind.Ascii]
  else
    withWorker env
      [Call.dialogNew DialogKind.Ascii, Call.dialogNew DialogKind.Gtk, Call.gtkInit false,
        Call.dialogInit DialogKind.Ascii, Call.setObserver DialogKind.Ascii]
      []
      [Call.dialogDelete DialogKind.Gtk, Call.dialogDelete DialogKind.Ascii]

/-- `runWithUi`, Mac (lines 177-185). -/
def runWithUiMac (env : Env) : List Event × Completion :=
  withWorker env
    [Call.dialogNew DialogKind.Cocoa, Call.setObserver DialogKind.Cocoa,
      Call.dialogInit DialogKind.Cocoa]
    [Call.dialogExec DialogKind.Cocoa]
    [Call.dialogDelete DialogKind.Cocoa]

/-- `runWithUi`, Windows (lines 201-209). -/
def runWithUiWindows (env : Env) : List Event × Completion :=
  withWorker env
    [Call.dialogNew DialogKind.Win32, Call.setObserver DialogKind.Win32,
      Call.dialogInit DialogKind.Win32]
    [Call.dialogExec DialogKind.Win32]
    [Call.dialogDelete DialogKind.Win32]

/-- `runWithUi` of the build at hand. -/
def runWithUi (env : Env) : List Event × Completion :=
  match env.platform with
  | Platform.Linux => runWithUiLinux env
  | Platform.Mac => runWithUiMac env
  | Platform.Windows => runWithUiWindows env

/-- The direct call `installer.run()` of line 142: an exception leaving it leaves `main`
too, there is no handler. -/
def runDirect (o : RunOutcome) : List Event × Completion :=
  match o with
  | RunOutcome.success => ([(Thread.main, Call.run)], Completion.returned)
  | RunOutcome.failure => ([(Thread.main, Call.run)], Completion.returned)
  | RunOutcome.throwsStd _ => ([(Thread.main, Call.run), (Thread.main, Call.abort)], Completion.escaped)
  | RunOutcome.throwsOther => ([(Thread.main, Call.run), (Thread.main, Call.abort)], Completion.escaped)

/-- Modelled from the spec: the function `FileUtils::makeAbsolute(path, basePath)`, declared
in `FileUtils.h` and defined outside the sources at hand. The spec has the script path
`resolved relative to the package directory if given as relative`: a relative path is taken
below the base directory, any other path is left as it is. Which paths are relative depends
on the path syntax of the platform, which the spec does not give: the test is the parameter
`isRelative`. -/
def FileUtils.makeAbsolute (isRelative : String → Bool) (path basePath : String) : String :=
  if isRelative path then basePath ++ "/" ++ path else path

/-- Lines 116-121: the script object after the optional `parse`, and the calls made. -/
def loadScript (env : Env) : List Call × ScriptState :=
  if env.options.scriptPath = "" then ([Call.scriptNew], ScriptState.defaultConstructed)
  else
    let manifest := env.makeAbsolute env.options.scriptPath env.options.packageDir
    ([Call.scriptNew, Call.scriptParse manifest],
      ScriptState.parsed manifest (env.parseManifest manifest))

/-- The message of the `LOG` statement of lines 123-127. -/
def startedMessage (env : Env) : String :=
  "started updater. install-dir: " ++ env.options.installDir
    ++ ", package-dir: " ++ env.options.packageDir
    ++ ", wait-pid: " ++ env.intToStr env.options.waitPid
    ++ ", script-path: " ++ env.options.scriptPath
    ++ ", mode: " ++ env.intToStr (env.modeValue env.options.mode)

/-- Lines 129-134: the six setters. -/
def configure (env : Env) (script : ScriptState) : List Call :=
  [Call.setMode env.options.mode, Call.setInstallDir env.options.installDir,
    Call.setPackageDir env.options.packageDir, Call.setScript script,
    Call.setWaitPid env.options.waitPid, Call.setForceElevated env.options.forceElevated]

/-- Lines 136-143: the installer is run behind the UI or directly. -/
def dispatch (env : Env) : List Event × Completion :=
  if env.options.mode = Mode.Main then runWithUi env else runDirect env.runOutcome

/-- Lines 91-105: the start of `main`, and whether line 103 returns. -/
def startup (env : Env) : List Call × Bool :=
  if env.platform = Platform.Mac then
    let u := unpackBundle env
    ([Call.createAutoreleasePool, Call.logOpen] ++ u.1, u.2)
  else ([Call.logOpen], false)

/-- Lines 107-134 on the path past the version query: the calls of `main` between the
start and the choice of line 136. -/
def prologue (env : Env) : List Call :=
  (startup env).1 ++ [Call.optionsParse, Call.installerNew] ++ (loadScript env).1
    ++ [Call.logInfo (startedMessage env)] ++ configure env (loadScript env).2

/-- Lines 145-147: the calls of `main` after the installer has run. -/
def epilogue (env : Env) : List Call :=
  if env.platform = Platform.Mac then [Call.releaseAutoreleasePool] else []

/-- `main` (lines 89-150). -/
def main (env : Env) : Outcome :=
  if (startup env).2 then ⟨onThread Thread.main (startup env).1, some 0⟩
  else if env.options.showVersion then
    ⟨onThread Thread.main
        ((startup env).1
          ++ [Call.optionsParse, Call.print ("Update installer version " ++ UPDATER_VERSION)]),
      some 0⟩
  else
    match (dispatch env).2 with
    | Completion.escaped => ⟨onThread Thread.main (prologue env) ++ (dispatch env).1, none⟩
    | Completion.returned =>
        ⟨onThread Thread.main (prologue env) ++ (dispatch env).1
            ++ onThread Thread.main (epilogue env),
          some 0⟩

/-! ## Reading a trace -/

/-- The calls made by thread `t` in a trace, in order. -/
def callsOf (t : Thread) (l : List Event) : List Call :=
  (l.filter (fun e => e.1 = t)).map (fun e => e.2)

/-- In the trace `t`, every occurrence of `b` comes after an occurrence of `a`. -/
def Precedes (a b : Event) (t : List Event) : Prop :=
  ∀ l1 l2, t = l1 ++ b :: l2 → a ∈ l1

/-- The dialog that `runWithUi` attaches to the installer as its observer. -/
def observerOf (env : Env) : DialogKind :=
  match env.platform with
  | Platform.Linux => if env.gtkInit then DialogKind.Gtk else DialogKind.Ascii
  | Platform.Mac => DialogKind.Cocoa
  | Platform.Windows => DialogKind.Win32

/-- The calls `setObserver`, whatever the dialog. -/
def Call.isSetObserver : Call → Bool
  | Call.setObserver _ => true
  | _ => false

/-- The calls on the dialog objects themselves. -/
def Call.isDialogCall : Call → Bool
  | Call.dialogNew _ => true
  | Call.gtkInit _ => true
  | Call.dialogInit _ => true
  | Call.dialogExec _ => true
  | Call.dialogDelete _ => true
  | _ => false

/-- The calls that running the installer, behind the UI or directly, consists of. -/
def Call.isRunPhase : Call → Bool
  | Call.createAutoreleasePool => true
  | Call.releaseAutoreleasePool => true
  | Call.logError _ => true
  | Call.setObserver _ => true
  | Call.run => true
  | Call.dialogNew _ => true
  | Call.gtkInit _ => true
  | Call.dialogInit _ => true
  | Call.dialogExec _ => true
  | Call.dialogDelete _ => true
  | Call.threadStart => true
  | Call.threadJoin => true
  | Call.abort => true
  | _ => false

/-- The six setters of lines 129-134. -/
def Call.isConfigure : Call → Bool
  | Call.setMode _ => true
  | Call.setInstallDir _ => true
  | Call.setPackageDir _ => true
  | Call.setScript _ => true
  | Call.setWaitPid _ => true
  | Call.setForceElevated _ => true
  | _ => false

/-- The calls `UpdateScript::parse`, whatever the manifest. -/
def Call.isScriptParse : Call → Bool
  | Call.scriptParse _ => true
  | _ => false

/-- The calls `setScript`, whatever the script. -/
def Call.isSetScript : Call → Bool
  | Call.setScript _ => true
  | _ => false

/-! ## Invocations used as examples -/

/-- Options of an example invocation: install directory `/opt/app`, package directory
`/tmp/pkg`, the process to wait for is 1234. -/
def sampleOptions (mode : Mode) (scriptPath : String) (showVersion : Bool) : UpdaterOptions :=
  { mode := mode, installDir := "/opt/app", packageDir := "/tmp/pkg", scriptPath := scriptPath,
    waitPid := 1234, showVersion := showVersion, forceElevated := false }

/-- An example invocation, outside a Mac bundle relaunch, with the scheduler letting the
worker go first. -/
def sampleEnv (platform : Platform) (options : UpdaterOptions) (gtkInit : Bool)
    (parseError : Option ScriptParseError) (runOutcome : RunOutcome) : Env :=
  { platform := platform, argv := ["updater"], inBundle := true,
    bundlePath := "/tmp/updater.app", options := options,
    makeAbsolute := fun path base => base ++ "/" ++ path,
    parseManifest := fun _ => parseError,
    intToStr := fun n => toString n,
    modeValue := fun m => match m with
      | Mode.Main => 1
      | Mode.Helper => 0,
    gtkInit := gtkInit, runOutcome := runOutcome, schedule := [] }

/-- The relative paths in the syntax of Linux and Mac: those that do not begin with `/`. -/
def unixRelative (path : String) : Bool :=
  match path.data with
  | '/' :: _ => false
  | _ => true

/-- An example invocation in Helper mode on Linux with the script path `file_list.xml`,
whose `makeAbsolute` is the one of the spec for the paths of Linux. -/
def scriptEnv : Env :=
  { sampleEnv Platform.Linux (sampleOptions Mode.Helper "file_list.xml" false) true none
      RunOutcome.success with
    makeAbsolute := FileUtils.makeAbsolute unixRelative }

/-! ## Facts about interleavings -/

theorem interleave_nil_left (s : List Bool) (ms : List Event) : interleave s [] ms = ms := by
  simp [interleave]

theorem interleave_nil_right (s : List Bool) (ws : List Event) : interleave s ws [] = ws := by
  cases ws <;> simp [interleave]

theorem count_interleave (e : Event) (s : List Bool) (ws ms : List Event) :
    (interleave s ws ms).count e = ws.count e + ms.count e := by
  induction s generalizing ws ms with
  | nil =>
    cases ws <;> cases ms <;> simp [interleave, List.count_cons, List.count_append]
    omega
  | cons b s ih =>
    cases ws with
    | nil => simp [interleave]
    | cons w ws =>
      cases ms with
      | nil => simp [interleave]
      | cons m ms =>
        cases b
        · simp only [interleave, List.count_cons, ih]; omega
        · simp only [interleave, List.count_cons, ih]; omega

theorem mem_interleave (e : Event) (s : List Bool) (ws ms : List Event) :
    e ∈ interleave s ws ms ↔ e ∈ ws ∨ e ∈ ms := by
  rw [← List.count_pos_iff, count_interleave, ← List.count_pos_iff, ← List.count_pos_iff]
  omega

theorem filter_interleave_left (p : Event → Bool) (s : List Bool) (ws ms : List Event)
    (hm : ∀ e ∈ ms, p e = false) :
    (interleave s ws ms).filter p = ws.filter p := by
  induction s generalizing ws ms with
  | nil =>
    cases ws with
    | nil => simpa [interleave, List.filter_eq_nil_iff] using hm
    | cons w ws =>
      cases ms with
      | nil => simp [interleave]
      | cons m ms =>
        simp only [interleave, List.filter_append]
        have : (m :: ms).filter p = [] := by
          simpa [List.filter_eq_nil_iff] using hm
        rw [this, List.append_nil]
  | cons b s ih =>
    cases ws with
    | nil => simpa [interleave, List.filter_eq_nil_iff] using hm
    | cons w ws =>
      cases ms with
      | nil => simp [interleave]
      | cons m ms =>
        cases b
        · have hp : p m = false := hm m (List.mem_cons_self _ _)
          have ht : ∀ e ∈ ms, p e = false := fun e he => hm e (List.mem_cons_of_mem _ he)
          simp only [interleave]
          rw [List.filter_cons_of_neg (by simp [hp]), ih (w :: ws) ms ht]
        · simp only [interleave, List.filter_cons, ih ws (m :: ms) hm]

theorem filter_interleave_right (p : Event → Bool) (s : List Bool) (ws ms : List Event)
    (hw : ∀ e ∈ ws, p e = false) :
    (interleave s ws ms).filter p = ms.filter p := by
  induction s generalizing ws ms with
  | nil =>
    cases ws with
    | nil => simp [interleave]
    | cons w ws =>
      have : (w :: ws).filter p = [] := by
        simpa [List.filter_eq_nil_iff] using hw
      cases ms with
      | nil => simpa [interleave] using this
      | cons m ms =>
        simp only [interleave, List.filter_append]
        rw [this, List.nil_append]
  | cons b s ih =>
    cases ws with
    | nil => simp [interleave]
    | cons w ws =>
      have hnil : (w :: ws).filter p = [] := by
        simpa [List.filter_eq_nil_iff] using hw
      cases ms with
      | nil => simpa [interleave] using hnil
      | cons m ms =>
        cases b
        · simp only [interleave, List.filter_cons, ih (w :: ws) ms hw]
        · have hp : p w = false := hw w (List.mem_cons_self _ _)
          have ht : ∀ e ∈ ws, p e = false := fun e he => hw e (List.mem_cons_of_mem _ he)
          simp only [interleave]
          rw [List.filter_cons_of_neg (by simp [hp]), ih ws (m :: ms) ht]

theorem interleave_true (s : List Bool) (w m : Event) (ws ms : List Event) :
    interleave (true :: s) (w :: ws) (m :: ms) = w :: interleave s ws (m :: ms) := by
  simp [interleave]

theorem interleave_false (s : List Bool) (w m : Event) (ws ms : List Event) :
    interleave (false :: s) (w :: ws) (m :: ms) = m :: interleave s (w :: ws) ms := by
  simp [interleave]

/-! ## Facts about a process that aborts -/

theorem untilAbort_cons (e : Event) (l : List Event) (h : e.2 ≠ Call.abort) :
    untilAbort (e :: l) = e :: untilAbort l := by
  simp [untilAbort, h]

theorem untilAbort_append_abort (t : Thread) (l1 l2 : List Event)
    (h : ∀ e ∈ l1, e.2 ≠ Call.abort) :
    untilAbort (l1 ++ (t, Call.abort) :: l2) = l1 ++ [(t, Call.abort)] := by
  induction l1 with
  | nil => simp [untilAbort]
  | cons x xs ih =>
    have hx : x.2 ≠ Call.abort := h x (List.mem_cons_self _ _)
    have hxs : ∀ e ∈ xs, e.2 ≠ Call.abort := fun e he => h e (List.mem_cons_of_mem _ he)
    simp [untilAbort, hx, ih hxs]

/-- A run cut short by an exception on the worker is an interleaving of all the calls the
worker made with the calls the main thread had made by then, followed by the abort. -/
theorem untilAbort_interleave (s : List Bool) (ws ms : List Event)
    (hw : ∀ e ∈ ws, e.2 ≠ Call.abort) (hm : ∀ e ∈ ms, e.2 ≠ Call.abort) :
    ∃ s1 ms1 ms2, ms = ms1 ++ ms2 ∧
      untilAbort (interleave s (ws ++ [(Thread.worker, Call.abort)]) ms)
        = interleave s1 ws ms1 ++ [(Thread.worker, Call.abort)] := by
  induction s generalizing ws ms with
  | nil =>
    refine ⟨[], [], ms, rfl, ?_⟩
    cases ms with
    | nil =>
      rw [interleave_nil_right, interleave_nil_right]
      simpa using untilAbort_append_abort Thread.worker ws [] hw
    | cons m ms =>
      rw [interleave_nil_right]
      cases ws with
      | nil => simp [interleave, untilAbort]
      | cons w ws =>
        simp only [List.cons_append, interleave, List.append_assoc]
        simpa using untilAbort_append_abort Thread.worker (w :: ws) (m :: ms) hw
  | cons b s ih =>
    cases ms with
    | nil =>
      refine ⟨[], [], [], rfl, ?_⟩
      rw [interleave_nil_right, interleave_nil_right]
      simpa using untilAbort_append_abort Thread.worker ws [] hw
    | cons m ms =>
      cases b with
      | true =>
        cases ws with
        | nil =>
          refine ⟨[], [], m :: ms, rfl, ?_⟩
          simp [interleave, untilAbort]
        | cons w ws =>
          have hw1 : w.2 ≠ Call.abort := hw w (List.mem_cons_self _ _)
          have hws : ∀ e ∈ ws, e.2 ≠ Call.abort := fun e he => hw e (List.mem_cons_of_mem _ he)
          obtain ⟨s1, ms1, ms2, h1, h2⟩ := ih ws (m :: ms) hws hm
          refine ⟨true :: s1, ms1, ms2, h1, ?_⟩
          rw [List.cons_append, interleave_true, untilAbort_cons _ _ hw1, h2]
          cases ms1 with
          | nil => simp [interleave_nil_right]
          | cons x xs => rw [interleave_true, List.cons_append]
      | false =>
        have hm1 : m.2 ≠ Call.abort := hm m (List.mem_cons_self _ _)
        have hms : ∀ e ∈ ms, e.2 ≠ Call.abort := fun e he => hm e (List.mem_cons_of_mem _ he)
        obtain ⟨s1, ms1, ms2, h1, h2⟩ := ih ws ms hw hms
        refine ⟨false :: s1, m :: ms1, ms2, by simp [h1], ?_⟩
        cases ws with
        | nil =>
          rw [List.nil_append, interleave_false, untilAbort_cons _ _ hm1]
          rw [List.nil_append] at h2
          rw [h2, interleave_nil_left, interleave_nil_left, List.cons_append]
        | cons w ws =>
          rw [List.cons_append, interleave_false, untilAbort_cons _ _ hm1]
          rw [List.cons_append] at h2
          rw [h2, interleave_false, List.cons_append]

/-! ## Facts about precedence -/

theorem precedes_of_not_mem (a b : Event) (t : List Event) (h : b ∉ t) : Precedes a b t := by
  intro l1 l2 ht
  exact absurd (by simp [ht]) h

theorem precedes_append (a b : Event) (p r : List Event) (ha : a ∈ p) (hb : b ∉ p) :
    Precedes a b (p ++ r) := by
  intro l1 l2 ht
  rcases List.append_eq_append_iff.mp ht with ⟨c, hc, _⟩ | ⟨c, hc, hr⟩
  · simp [hc, ha]
  · cases c with
    | nil => simpa [hc] using ha
    | cons x xs =>
      simp only [List.cons_append, List.cons.injEq] at hr
      exact absurd (by simp [hc, hr.1]) hb

/-! ## The shape of a run behind the UI -/

theorem mem_onThread (e : Event) (t : Thread) (cs : List Call) :
    e ∈ onThread t cs ↔ e.1 = t ∧ e.2 ∈ cs := by
  obtain ⟨t1, c⟩ := e
  simp only [onThread, List.mem_map, Prod.mk.injEq]
  constructor
  · rintro ⟨x, hx, rfl, rfl⟩
    exact ⟨rfl, hx⟩
  · rintro ⟨rfl, hc⟩
    exact ⟨c, hc, rfl, rfl⟩

theorem runUpdaterThread_no_abort (p : Platform) (o : RunOutcome) :
    ∀ e ∈ onThread Thread.worker (runUpdaterThread p o).1, e.2 ≠ Call.abort := by
  intro e he
  rw [mem_onThread] at he
  intro h
  rw [h] at he
  cases p <;> cases o <;> simp [runUpdaterThread] at he

/-- The trace of `withWorker`: the calls before the thread is started and its start, then
an interleaving of all the worker's calls with calls of the main thread, then the join and
the destructors when the worker returned, and the abort when an exception left it. -/
theorem withWorker_shape (env : Env) (b d a : List Call) (hd : Call.abort ∉ d) :
    ∃ s1 d1 d2, d = d1 ++ d2 ∧
      (withWorker env b d a).2 = (runUpdaterThread env.platform env.runOutcome).2 ∧
      ((withWorker env b d a).2 = Completion.returned → d2 = []) ∧
      (withWorker env b d a).1
        = onThread Thread.main (b ++ [Call.threadStart])
          ++ interleave s1 (onThread Thread.worker (runUpdaterThread env.platform env.runOutcome).1)
              (onThread Thread.main d1)
          ++ (match (withWorker env b d a).2 with
              | Completion.returned => onThread Thread.main (Call.threadJoin :: a)
              | Completion.escaped => [(Thread.worker, Call.abort)]) := by
  rcases hc : (runUpdaterThread env.platform env.runOutcome).2 with _ | _
  · refine ⟨env.schedule, d, [], by simp, ?_, ?_, ?_⟩ <;> simp [withWorker, hc]
  · have hm : ∀ e ∈ onThread Thread.main d, e.2 ≠ Call.abort := by
      intro e he h
      rw [mem_onThread, h] at he
      exact hd he.2
    obtain ⟨s1, ms1, ms2, h1, h2⟩ := untilAbort_interleave env.schedule _ _
      (runUpdaterThread_no_abort env.platform env.runOutcome) hm
    obtain ⟨d1, d2, hd12, hd1, _⟩ := List.map_eq_append_iff.mp h1
    refine ⟨s1, d1, d2, hd12, ?_, ?_, ?_⟩
    · simp [withWorker, hc]
    · simp [withWorker, hc]
    · have h3 : onThread Thread.worker
            ((runUpdaterThread env.platform env.runOutcome).1 ++ [Call.abort])
          = onThread Thread.worker (runUpdaterThread env.platform env.runOutcome).1
            ++ [(Thread.worker, Call.abort)] := by
        simp [onThread]
      simp only [withWorker, hc, h3, h2]
      simp [onThread, ← hd1]


theorem runUpdaterThread_calls (p : Platform) (o : RunOutcome) :
    ∀ c ∈ (runUpdaterThread p o).1,
      c = Call.createAutoreleasePool ∨ c = Call.run ∨ (∃ m, c = Call.logError m)
        ∨ c = Call.releaseAutoreleasePool := by
  intro c hc
  cases p <;> cases o <;> simp [runUpdaterThread] at hc <;> aesop

theorem runUpdaterThread_run_once (p : Platform) (o : RunOutcome) :
    (onThread Thread.worker (runUpdaterThread p o).1).count (Thread.worker, Call.run) = 1 := by
  cases p <;> cases o <;> simp [runUpdaterThread, onThread, List.count_cons]

theorem precedes_split (a b : Event) (t p r : List Event) (h : t = p ++ r) (ha : a ∈ p)
    (hb : b ∉ p) : Precedes a b t := by
  rw [h]
  exact precedes_append a b p r ha hb

theorem withWorker_observer (env : Env) (k : DialogKind) (b0 b1 d a : List Call)
    (hnew : Call.dialogNew k ∈ b0)
    (hb0 : ∀ c ∈ b0, c.isDialogCall = true) (hb1 : ∀ c ∈ b1, c.isDialogCall = true)
    (hd : ∀ c ∈ d, c.isDialogCall = true) (ha : ∀ c ∈ a, c.isDialogCall = true)
    (hdel : Call.dialogDelete k ∉ b0 ++ b1 ++ d) :
    (withWorker env (b0 ++ Call.setObserver k :: b1) d a).1.filter (fun e => e.2.isSetObserver)
        = [(Thread.main, Call.setObserver k)] ∧
      Precedes (Thread.main, Call.dialogNew k) (Thread.main, Call.setObserver k)
        (withWorker env (b0 ++ Call.setObserver k :: b1) d a).1 ∧
      (withWorker env (b0 ++ Call.setObserver k :: b1) d a).1.count
        (Thread.main, Call.threadStart) = 1 ∧
      (withWorker env (b0 ++ Call.setObserver k :: b1) d a).1.count
        (Thread.worker, Call.threadStart) = 0 ∧
      Precedes (Thread.main, Call.setObserver k) (Thread.main, Call.threadStart)
        (withWorker env (b0 ++ Call.setObserver k :: b1) d a).1 ∧
      (∀ e ∈ (withWorker env (b0 ++ Call.setObserver k :: b1) d a).1, e.1 = Thread.worker →
        Precedes (Thread.main, Call.threadStart) e
          (withWorker env (b0 ++ Call.setObserver k :: b1) d a).1) ∧
      (withWorker env (b0 ++ Call.setObserver k :: b1) d a).1.count
        (Thread.worker, Call.run) = 1 ∧
      (withWorker env (b0 ++ Call.setObserver k :: b1) d a).1.count
        (Thread.main, Call.run) = 0 ∧
      (∀ th, Precedes (Thread.main, Call.setObserver k) (th, Call.run)
        (withWorker env (b0 ++ Call.setObserver k :: b1) d a).1) ∧
      Precedes (Thread.main, Call.threadJoin) (Thread.main, Call.dialogDelete k)
        (withWorker env (b0 ++ Call.setObserver k :: b1) d a).1 ∧
      (∀ e ∈ (withWorker env (b0 ++ Call.setObserver k :: b1) d a).1, e.1 = Thread.worker →
        Precedes e (Thread.main, Call.threadJoin)
          (withWorker env (b0 ++ Call.setObserver k :: b1) d a).1) := by
  have hdab : Call.abort ∉ d := fun h => by simpa [Call.isDialogCall] using hd _ h
  obtain ⟨s1, d1, d2, hd12, -, -, hT⟩ :=
    withWorker_shape env (b0 ++ Call.setObserver k :: b1) d a hdab
  have hd1 : ∀ c ∈ d1, c ∈ d := fun c hc => by rw [hd12]; simp [hc]
  generalize (withWorker env (b0 ++ Call.setObserver k :: b1) d a).1 = T at hT ⊢
  generalize (withWorker env (b0 ++ Call.setObserver k :: b1) d a).2 = cmp at hT
  have hW := runUpdaterThread_calls env.platform env.runOutcome
  have hrun := runUpdaterThread_run_once env.platform env.runOutcome
  generalize (runUpdaterThread env.platform env.runOutcome).1 = W at hT hW hrun
  -- what the lists of calls cannot contain
  have nd : ∀ l : List Call, (∀ c ∈ l, c.isDialogCall = true) →
      ∀ c, c.isDialogCall = false → c ∉ l := by
    intro l hl c hc hm
    have := hl c hm
    simp [hc] at this
  have hd1' : ∀ c ∈ d1, c.isDialogCall = true := fun c hc => hd c (hd1 c hc)
  have hdel0 : Call.dialogDelete k ∉ b0 := fun h => hdel (by simp [h])
  have hdel1 : Call.dialogDelete k ∉ b1 := fun h => hdel (by simp [h])
  have hdeld : Call.dialogDelete k ∉ d1 := fun h => hdel (by simp [hd1 _ h])
  have hWd : ∀ c ∈ W, c.isDialogCall = false ∧ c.isSetObserver = false ∧ c ≠ Call.threadStart
      ∧ c ≠ Call.threadJoin := by
    intro c hc
    rcases hW c hc with rfl | rfl | ⟨m, rfl⟩ | rfl <;> simp [Call.isDialogCall, Call.isSetObserver]
  -- the trace, flattened
  obtain ⟨tail, htail, hT1⟩ : ∃ tail : List Event,
      (tail = onThread Thread.main (Call.threadJoin :: a) ∨ tail = [(Thread.worker, Call.abort)]) ∧
      T = onThread Thread.main b0 ++ (Thread.main, Call.setObserver k) ::
        (onThread Thread.main b1 ++ (Thread.main, Call.threadStart) ::
          (interleave s1 (onThread Thread.worker W) (onThread Thread.main d1) ++ tail)) := by
    cases cmp
    · exact ⟨_, Or.inl rfl, by simp [hT, onThread]⟩
    · exact ⟨_, Or.inr rfl, by simp [hT, onThread]⟩
  clear hT
  have hI : ∀ e ∈ interleave s1 (onThread Thread.worker W) (onThread Thread.main d1),
      (e.1 = Thread.worker ∧ e.2 ∈ W) ∨ (e.1 = Thread.main ∧ e.2 ∈ d1) := by
    intro e he
    rw [mem_interleave, mem_onThread, mem_onThread] at he
    exact he
  have hIc : ∀ e, (interleave s1 (onThread Thread.worker W) (onThread Thread.main d1)).count e
      = (onThread Thread.worker W).count e + (onThread Thread.main d1).count e :=
    fun e => count_interleave e s1 _ _
  generalize interleave s1 (onThread Thread.worker W) (onThread Thread.main d1) = I at hT1 hI hIc
  -- membership in the pieces
  have m0 : ∀ e ∈ onThread Thread.main b0, e.1 = Thread.main ∧ e.2.isDialogCall = true :=
    fun e he => ⟨((mem_onThread e _ _).mp he).1, hb0 _ ((mem_onThread e _ _).mp he).2⟩
  have m1 : ∀ e ∈ onThread Thread.main b1, e.1 = Thread.main ∧ e.2.isDialogCall = true :=
    fun e he => ⟨((mem_onThread e _ _).mp he).1, hb1 _ ((mem_onThread e _ _).mp he).2⟩
  have mI : ∀ e ∈ I, (e.1 = Thread.worker ∧ e.2.isDialogCall = false ∧ e.2.isSetObserver = false
      ∧ e.2 ≠ Call.threadStart ∧ e.2 ≠ Call.threadJoin)
      ∨ (e.1 = Thread.main ∧ e.2.isDialogCall = true ∧ e.2 ≠ Call.dialogDelete k) := by
    intro e he
    rcases hI e he with ⟨h1, h2⟩ | ⟨h1, h2⟩
    · exact Or.inl ⟨h1, hWd _ h2⟩
    · exact Or.inr ⟨h1, hd1' _ h2, fun h => hdeld (h ▸ h2)⟩
  have mt : ∀ e ∈ tail, e = (Thread.worker, Call.abort) ∨ e = (Thread.main, Call.threadJoin)
      ∨ (e.1 = Thread.main ∧ e.2.isDialogCall = true) := by
    intro e he
    rcases htail with rfl | rfl
    · rw [mem_onThread] at he
      rcases List.mem_cons.mp he.2 with h | h
      · exact Or.inr (Or.inl (Prod.ext he.1 h))
      · exact Or.inr (Or.inr ⟨he.1, ha _ h⟩)
    · exact Or.inl (by simpa using he)
  have dn : ∀ c : Call, c.isDialogCall = true → c.isSetObserver = false ∧ c ≠ Call.threadStart
      ∧ c ≠ Call.threadJoin ∧ c ≠ Call.run ∧ c ≠ Call.setObserver k := by
    intro c
    cases c <;> simp [Call.isDialogCall, Call.isSetObserver]
  -- events that do not occur in the pieces
  have n0 : ∀ e : Event, e.2.isDialogCall = false → e ∉ onThread Thread.main b0 := by
    intro e h he
    simp [(m0 e he).2] at h
  have n1 : ∀ e : Event, e.2.isDialogCall = false → e ∉ onThread Thread.main b1 := by
    intro e h he
    simp [(m1 e he).2] at h
  have w0 : ∀ e : Event, e.1 = Thread.worker → e ∉ onThread Thread.main b0 := by
    intro e h he
    simp [(m0 e he).1] at h
  have w1 : ∀ e : Event, e.1 = Thread.worker → e ∉ onThread Thread.main b1 := by
    intro e h he
    simp [(m1 e he).1] at h
  have nIs : (Thread.main, Call.threadStart) ∉ I ∧ (Thread.worker, Call.threadStart) ∉ I
      ∧ (Thread.main, Call.threadJoin) ∉ I ∧ (Thread.main, Call.dialogDelete k) ∉ I
      ∧ (Thread.main, Call.run) ∉ I := by
    refine ⟨?_, ?_, ?_, ?_, ?_⟩ <;> intro h <;> rcases mI _ h with h1 | h1 <;>
      simp [Call.isDialogCall] at h1
  have nts : (Thread.main, Call.threadStart) ∉ tail ∧ (Thread.worker, Call.threadStart) ∉ tail
      ∧ (Thread.worker, Call.run) ∉ tail ∧ (Thread.main, Call.run) ∉ tail := by
    refine ⟨?_, ?_, ?_, ?_⟩ <;> intro h <;> rcases mt _ h with h1 | h1 | h1 <;>
      simp [Call.isDialogCall] at h1
  have cz : ∀ (l : List Event) (e : Event), e ∉ l → l.count e = 0 :=
    fun l e h => List.count_eq_zero_of_not_mem h
  refine ⟨?_, ?_, ?_, ?_, ?_, ?_, ?_, ?_, ?_, ?_, ?_⟩
  · have f0 : ∀ l : List Event, (∀ e ∈ l, e.2.isSetObserver = false) →
        l.filter (fun e => e.2.isSetObserver) = [] := by
      intro l h
      simpa [List.filter_eq_nil_iff] using h
    have fI : ∀ e ∈ I, e.2.isSetObserver = false := by
      intro e he
      rcases mI e he with h | h
      · exact h.2.2.1
      · exact (dn _ h.2.1).1
    have ft : ∀ e ∈ tail, e.2.isSetObserver = false := by
      intro e he
      rcases mt e he with rfl | rfl | h
      · rfl
      · rfl
      · exact (dn _ h.2).1
    rw [hT1]
    simp only [List.filter_append, List.filter_cons]
    rw [f0 _ (fun e he => (dn _ (m0 e he).2).1), f0 _ (fun e he => (dn _ (m1 e he).2).1),
      f0 I fI, f0 tail ft]
    simp [Call.isSetObserver]
  · refine precedes_split _ _ T (onThread Thread.main b0) _ hT1 ?_ ?_
    · exact (mem_onThread _ _ _).mpr ⟨rfl, hnew⟩
    · exact n0 _ rfl
  · rw [hT1]
    simp only [List.count_append, List.count_cons]
    rw [cz _ (Thread.main, Call.threadStart) (n0 _ rfl),
      cz _ (Thread.main, Call.threadStart) (n1 _ rfl), cz _ _ nIs.1, cz _ _ nts.1]
    simp
  · rw [hT1]
    simp only [List.count_append, List.count_cons]
    rw [cz _ (Thread.worker, Call.threadStart) (n0 _ rfl),
      cz _ (Thread.worker, Call.threadStart) (n1 _ rfl), cz _ _ nIs.2.1, cz _ _ nts.2.1]
    simp
  · refine precedes_split _ _ T
      (onThread Thread.main b0 ++ (Thread.main, Call.setObserver k) :: onThread Thread.main b1)
      ((Thread.main, Call.threadStart) :: (I ++ tail)) (by simp [hT1]) (by simp) ?_
    simp only [List.mem_append, List.mem_cons, not_or]
    exact ⟨n0 _ rfl, by simp, n1 _ rfl⟩
  · intro e _ hw
    refine precedes_split _ _ T
      (onThread Thread.main b0 ++ (Thread.main, Call.setObserver k) :: (onThread Thread.main b1
        ++ [(Thread.main, Call.threadStart)]))
      (I ++ tail) (by simp [hT1]) (by simp) ?_
    simp only [List.mem_append, List.mem_cons, List.mem_singleton, not_or]
    refine ⟨w0 e hw, ?_, w1 e hw, ?_, by simp⟩ <;> intro h <;> rw [h] at hw <;> simp at hw
  · rw [hT1]
    simp only [List.count_append, List.count_cons, hIc, hrun]
    rw [cz _ (Thread.worker, Call.run) (w0 _ rfl), cz _ (Thread.worker, Call.run) (w1 _ rfl),
      cz _ _ nts.2.2.1,
      cz (onThread Thread.main d1) _ (fun h => by simpa using ((mem_onThread _ _ _).mp h).1)]
    simp
  · rw [hT1]
    simp only [List.count_append, List.count_cons]
    rw [cz _ (Thread.main, Call.run) (n0 _ rfl), cz _ (Thread.main, Call.run) (n1 _ rfl),
      cz _ _ nIs.2.2.2.2, cz _ _ nts.2.2.2]
    simp
  · intro th
    refine precedes_split _ _ T
      (onThread Thread.main b0 ++ [(Thread.main, Call.setObserver k)])
      (onThread Thread.main b1 ++ (Thread.main, Call.threadStart) :: (I ++ tail))
      (by simp [hT1]) (by simp) ?_
    simp only [List.mem_append, List.mem_singleton, not_or]
    exact ⟨n0 _ rfl, by simp⟩
  · rcases htail with rfl | rfl
    · refine precedes_split _ _ T
        (onThread Thread.main b0 ++ (Thread.main, Call.setObserver k) :: (onThread Thread.main b1
          ++ (Thread.main, Call.threadStart) :: (I ++ [(Thread.main, Call.threadJoin)])))
        (onThread Thread.main a) (by simp [hT1, onThread]) (by simp) ?_
      simp only [List.mem_append, List.mem_cons, List.mem_singleton, not_or]
      refine ⟨?_, by simp, ?_, by simp, nIs.2.2.2.1, by simp⟩
      · exact fun h => hdel0 ((mem_onThread _ _ _).mp h).2
      · exact fun h => hdel1 ((mem_onThread _ _ _).mp h).2
    · refine precedes_of_not_mem _ _ T ?_
      rw [hT1]
      simp only [List.mem_append, List.mem_cons, List.mem_singleton, not_or]
      refine ⟨?_, by simp, ?_, by simp, nIs.2.2.2.1, by simp⟩
      · exact fun h => hdel0 ((mem_onThread _ _ _).mp h).2
      · exact fun h => hdel1 ((mem_onThread _ _ _).mp h).2
  · intro e he hw
    rcases htail with rfl | rfl
    · refine precedes_split _ _ T
        (onThread Thread.main b0 ++ (Thread.main, Call.setObserver k) :: (onThread Thread.main b1
          ++ (Thread.main, Call.threadStart) :: I))
        (onThread Thread.main (Call.threadJoin :: a)) (by simp [hT1]) ?_ ?_
      · rw [hT1] at he
        simp only [List.mem_append, List.mem_cons] at he ⊢
        rcases he with h | h | h | h | h | h
        · exact Or.inl h
        · exact Or.inr (Or.inl h)
        · exact Or.inr (Or.inr (Or.inl h))
        · exact Or.inr (Or.inr (Or.inr (Or.inl h)))
        · exact Or.inr (Or.inr (Or.inr (Or.inr h)))
        · rw [mem_onThread] at h
          rw [h.1] at hw
          simp at hw
      · simp only [List.mem_append, List.mem_cons, not_or]
        exact ⟨n0 _ rfl, by simp, n1 _ rfl, by simp, nIs.2.2.1⟩
    · refine precedes_of_not_mem _ _ T ?_
      rw [hT1]
      simp only [List.mem_append, List.mem_cons, List.mem_singleton, not_or]
      exact ⟨n0 _ rfl, by simp, n1 _ rfl, by simp, nIs.2.2.1, by simp⟩


/-! ## The calls of each thread -/

theorem callsOf_append (t : Thread) (l1 l2 : List Event) :
    callsOf t (l1 ++ l2) = callsOf t l1 ++ callsOf t l2 := by
  simp [callsOf]

theorem callsOf_onThread_self (t : Thread) (cs : List Call) : callsOf t (onThread t cs) = cs := by
  induction cs with
  | nil => rfl
  | cons c cs ih =>
    simp only [callsOf, onThread] at ih ⊢
    simp [ih]

theorem callsOf_onThread_other (t u : Thread) (cs : List Call) (h : u ≠ t) :
    callsOf t (onThread u cs) = [] := by
  induction cs with
  | nil => rfl
  | cons c cs ih =>
    simp only [callsOf, onThread] at ih ⊢
    simp [ih, h]

theorem callsOf_interleave_worker (s : List Bool) (ws ms : List Call) :
    callsOf Thread.worker (interleave s (onThread Thread.worker ws) (onThread Thread.main ms))
      = ws := by
  have h := filter_interleave_left (fun e => decide (e.1 = Thread.worker)) s
    (onThread Thread.worker ws) (onThread Thread.main ms)
    (fun e he => by simp [((mem_onThread e _ _).mp he).1])
  have h2 := callsOf_onThread_self Thread.worker ws
  simp only [callsOf] at h2 ⊢
  rw [h, h2]

theorem callsOf_interleave_main (s : List Bool) (ws ms : List Call) :
    callsOf Thread.main (interleave s (onThread Thread.worker ws) (onThread Thread.main ms))
      = ms := by
  have h := filter_interleave_right (fun e => decide (e.1 = Thread.main)) s
    (onThread Thread.worker ws) (onThread Thread.main ms)
    (fun e he => by simp [((mem_onThread e _ _).mp he).1])
  have h2 := callsOf_onThread_self Thread.main ms
  simp only [callsOf] at h2 ⊢
  rw [h, h2]

/-- The calls of each thread in a run of `withWorker`. -/
theorem withWorker_threads (env : Env) (b d a : List Call) (hd : Call.abort ∉ d) :
    callsOf Thread.worker (withWorker env b d a).1
        = (runUpdaterThread env.platform env.runOutcome).1
          ++ (match (withWorker env b d a).2 with
              | Completion.returned => []
              | Completion.escaped => [Call.abort]) ∧
      ((withWorker env b d a).2 = Completion.returned →
        callsOf Thread.main (withWorker env b d a).1
          = b ++ Call.threadStart :: (d ++ Call.threadJoin :: a)) ∧
      ((withWorker env b d a).2 = Completion.escaped →
        ∃ d1 d2, d = d1 ++ d2 ∧
          callsOf Thread.main (withWorker env b d a).1 = b ++ Call.threadStart :: d1) := by
  obtain ⟨s1, d1, d2, hd12, -, hret, hT⟩ := withWorker_shape env b d a hd
  generalize (withWorker env b d a).1 = T at hT ⊢
  generalize (withWorker env b d a).2 = cmp at hT hret ⊢
  have hwm : Thread.worker ≠ Thread.main := by decide
  have hmw : Thread.main ≠ Thread.worker := by decide
  cases cmp
  · have hd2 : d2 = [] := hret rfl
    subst hd2
    simp only [List.append_nil] at hd12
    subst hd12
    refine ⟨?_, fun _ => ?_, fun h => by simp at h⟩
    · rw [hT]
      simp only [callsOf_append, callsOf_interleave_worker, callsOf_onThread_other _ _ _ hmw]
      simp
    · rw [hT]
      simp only [callsOf_append, callsOf_interleave_main, callsOf_onThread_self]
      simp
  · refine ⟨?_, fun h => by simp at h, fun _ => ⟨d1, d2, hd12, ?_⟩⟩
    · rw [hT]
      simp only [callsOf_append, callsOf_interleave_worker, callsOf_onThread_other _ _ _ hmw]
      simp [callsOf]
    · rw [hT]
      simp only [callsOf_append, callsOf_interleave_main, callsOf_onThread_self]
      simp [callsOf]

/-! ## The shape of `main` -/

/-- Past the bundle relaunch and the version query, `main` is its prologue, the run of the
installer and, when that returns, the epilogue and `return 0`. -/
theorem main_past_version (env : Env) (hb : (startup env).2 = false)
    (hv : env.options.showVersion = false) :
    (main env).trace
        = onThread Thread.main (prologue env) ++ (dispatch env).1
          ++ (match (dispatch env).2 with
              | Completion.returned => onThread Thread.main (epilogue env)
              | Completion.escaped => []) ∧
      (main env).exit
        = (match (dispatch env).2 with
            | Completion.returned => some 0
            | Completion.escaped => none) := by
  unfold main
  rw [hb, hv]
  cases (dispatch env).2 <;> simp

theorem runWithUi_eq (env : Env) :
    ∃ b d a : List Call, runWithUi env = withWorker env b d a ∧ Call.abort ∉ d ∧
      (Call.threadStart ∉ b ∧ Call.threadJoin ∉ b) ∧ (∀ c ∈ a, ∃ k, c = Call.dialogDelete k) ∧
      d = (if observerOf env = DialogKind.Ascii then []
        else [Call.dialogExec (observerOf env)]) ∧
      (∀ c ∈ b ++ d ++ a, c.isRunPhase = true) := by
  rcases hp : env.platform with _ | _ | _
  · rcases hg : env.gtkInit with _ | _
    · refine ⟨[Call.dialogNew DialogKind.Ascii, Call.dialogNew DialogKind.Gtk,
          Call.gtkInit false, Call.dialogInit DialogKind.Ascii,
          Call.setObserver DialogKind.Ascii], [],
        [Call.dialogDelete DialogKind.Gtk, Call.dialogDelete DialogKind.Ascii], ?_, ?_, ?_, ?_, ?_, ?_⟩
      · simp [runWithUi, runWithUiLinux, hp, hg]
      · simp
      · simp
      · simp
      · simp [observerOf, hp, hg]
      · simp [Call.isRunPhase]
    · refine ⟨[Call.dialogNew DialogKind.Ascii, Call.dialogNew DialogKind.Gtk,
          Call.gtkInit true, Call.setObserver DialogKind.Gtk], [Call.dialogExec DialogKind.Gtk],
        [Call.dialogDelete DialogKind.Gtk, Call.dialogDelete DialogKind.Ascii], ?_, ?_, ?_, ?_, ?_, ?_⟩
      · simp [runWithUi, runWithUiLinux, hp, hg]
      · simp
      · simp
      · simp
      · simp [observerOf, hp, hg]
      · simp [Call.isRunPhase]
  · refine ⟨[Call.dialogNew DialogKind.Cocoa, Call.setObserver DialogKind.Cocoa,
        Call.dialogInit DialogKind.Cocoa], [Call.dialogExec DialogKind.Cocoa],
      [Call.dialogDelete DialogKind.Cocoa], ?_, ?_, ?_, ?_, ?_, ?_⟩
    · simp [runWithUi, runWithUiMac, hp]
    · simp
    · simp
    · simp
    · simp [observerOf, hp]
    · simp [Call.isRunPhase]
  · refine ⟨[Call.dialogNew DialogKind.Win32, Call.setObserver DialogKind.Win32,
        Call.dialogInit DialogKind.Win32], [Call.dialogExec DialogKind.Win32],
      [Call.dialogDelete DialogKind.Win32], ?_, ?_, ?_, ?_, ?_, ?_⟩
    · simp [runWithUi, runWithUiWindows, hp]
    · simp
    · simp
    · simp
    · simp [observerOf, hp]
    · simp [Call.isRunPhase]

theorem mem_callsOf (t : Thread) (c : Call) (l : List Event) :
    c ∈ callsOf t l ↔ (t, c) ∈ l := by
  simp only [callsOf, List.mem_map, List.mem_filter, decide_eq_true_eq]
  constructor
  · rintro ⟨⟨t1, c1⟩, ⟨h1, h2⟩, h3⟩
    simp only at h2 h3
    rw [← h2, ← h3]
    exact h1
  · intro h
    exact ⟨(t, c), ⟨h, rfl⟩, rfl⟩

/-- What every variant of `runWithUi` does with the observer, the worker and the join. -/
theorem runWithUi_facts (env : Env) :
    (runWithUi env).1.filter (fun e => e.2.isSetObserver)
        = [(Thread.main, Call.setObserver (observerOf env))] ∧
      Precedes (Thread.main, Call.dialogNew (observerOf env))
        (Thread.main, Call.setObserver (observerOf env)) (runWithUi env).1 ∧
      (runWithUi env).1.count (Thread.main, Call.threadStart) = 1 ∧
      (runWithUi env).1.count (Thread.worker, Call.threadStart) = 0 ∧
      Precedes (Thread.main, Call.setObserver (observerOf env))
        (Thread.main, Call.threadStart) (runWithUi env).1 ∧
      (∀ e ∈ (runWithUi env).1, e.1 = Thread.worker →
        Precedes (Thread.main, Call.threadStart) e (runWithUi env).1) ∧
      (runWithUi env).1.count (Thread.worker, Call.run) = 1 ∧
      (runWithUi env).1.count (Thread.main, Call.run) = 0 ∧
      (∀ th, Precedes (Thread.main, Call.setObserver (observerOf env))
        (th, Call.run) (runWithUi env).1) ∧
      Precedes (Thread.main, Call.threadJoin)
        (Thread.main, Call.dialogDelete (observerOf env)) (runWithUi env).1 ∧
      (∀ e ∈ (runWithUi env).1, e.1 = Thread.worker →
        Precedes e (Thread.main, Call.threadJoin) (runWithUi env).1) := by
  rcases hp : env.platform with _ | _ | _
  · rcases hg : env.gtkInit with _ | _
    · have h := withWorker_observer env DialogKind.Ascii
        [Call.dialogNew DialogKind.Ascii, Call.dialogNew DialogKind.Gtk, Call.gtkInit false,
          Call.dialogInit DialogKind.Ascii] [] []
        [Call.dialogDelete DialogKind.Gtk, Call.dialogDelete DialogKind.Ascii]
        (by simp) (by simp [Call.isDialogCall]) (by simp) (by simp)
        (by simp [Call.isDialogCall]) (by simp)
      simpa [runWithUi, runWithUiLinux, observerOf, hp, hg] using h
    · have h := withWorker_observer env DialogKind.Gtk
        [Call.dialogNew DialogKind.Ascii, Call.dialogNew DialogKind.Gtk, Call.gtkInit true] []
        [Call.dialogExec DialogKind.Gtk]
        [Call.dialogDelete DialogKind.Gtk, Call.dialogDelete DialogKind.Ascii]
        (by simp) (by simp [Call.isDialogCall]) (by simp) (by simp [Call.isDialogCall])
        (by simp [Call.isDialogCall]) (by simp)
      simpa [runWithUi, runWithUiLinux, observerOf, hp, hg] using h
  · have h := withWorker_observer env DialogKind.Cocoa
      [Call.dialogNew DialogKind.Cocoa] [Call.dialogInit DialogKind.Cocoa]
      [Call.dialogExec DialogKind.Cocoa] [Call.dialogDelete DialogKind.Cocoa]
      (by simp) (by simp [Call.isDialogCall]) (by simp [Call.isDialogCall])
      (by simp [Call.isDialogCall]) (by simp [Call.isDialogCall]) (by simp)
    simpa [runWithUi, runWithUiMac, observerOf, hp] using h
  · have h := withWorker_observer env DialogKind.Win32
      [Call.dialogNew DialogKind.Win32] [Call.dialogInit DialogKind.Win32]
      [Call.dialogExec DialogKind.Win32] [Call.dialogDelete DialogKind.Win32]
      (by simp) (by simp [Call.isDialogCall]) (by simp [Call.isDialogCall])
      (by simp [Call.isDialogCall]) (by simp [Call.isDialogCall]) (by simp)
    simpa [runWithUi, runWithUiWindows, observerOf, hp] using h


/-! ## What running the installer consists of -/

theorem mem_withWorker (env : Env) (b d a : List Call) (hd : Call.abort ∉ d) (e : Event)
    (he : e ∈ (withWorker env b d a).1) :
    (e.1 = Thread.main ∧
        (e.2 ∈ b ∨ e.2 = Call.threadStart ∨ e.2 ∈ d ∨ e.2 = Call.threadJoin ∨ e.2 ∈ a)) ∨
      (e.1 = Thread.worker ∧
        (e.2 ∈ (runUpdaterThread env.platform env.runOutcome).1 ∨ e.2 = Call.abort)) := by
  obtain ⟨s1, d1, d2, hd12, -, -, hT⟩ := withWorker_shape env b d a hd
  rw [hT] at he
  rcases List.mem_append.mp he with h | h
  · rcases List.mem_append.mp h with h | h
    · rw [mem_onThread] at h
      rcases List.mem_append.mp h.2 with h2 | h2
      · exact Or.inl ⟨h.1, Or.inl h2⟩
      · exact Or.inl ⟨h.1, Or.inr (Or.inl (by simpa using h2))⟩
    · rw [mem_interleave, mem_onThread, mem_onThread] at h
      rcases h with h | h
      · exact Or.inr ⟨h.1, Or.inl h.2⟩
      · exact Or.inl ⟨h.1, Or.inr (Or.inr (Or.inl (by rw [hd12]; simp [h.2])))⟩
  · rcases hcmp : (withWorker env b d a).2 with _ | _
    · simp only [hcmp, mem_onThread, List.mem_cons] at h
      rcases h with ⟨h1, h2 | h2⟩
      · exact Or.inl ⟨h1, Or.inr (Or.inr (Or.inr (Or.inl h2)))⟩
      · exact Or.inl ⟨h1, Or.inr (Or.inr (Or.inr (Or.inr h2)))⟩
    · simp only [hcmp, List.mem_singleton] at h
      rw [h]
      exact Or.inr ⟨rfl, Or.inr rfl⟩

theorem dispatch_vocabulary (env : Env) : ∀ e ∈ (dispatch env).1, e.2.isRunPhase = true := by
  intro e he
  by_cases hm : env.options.mode = Mode.Main
  · have hdisp : dispatch env = runWithUi env := by simp [dispatch, hm]
    rw [hdisp] at he
    have hW := runUpdaterThread_calls env.platform env.runOutcome
    obtain ⟨b, d, a, hr, hd, -, -, -, hvoc⟩ := runWithUi_eq env
    rw [hr] at he
    rcases mem_withWorker env b d a hd e he with ⟨-, h⟩ | ⟨-, h | h⟩
    · rcases h with h | h | h | h | h
      · exact hvoc _ (by simp [h])
      · simp [h, Call.isRunPhase]
      · exact hvoc _ (by simp [h])
      · simp [h, Call.isRunPhase]
      · exact hvoc _ (by simp [h])
    · rcases hW _ h with h | h | ⟨m, h⟩ | h <;> simp [h, Call.isRunPhase]
    · simp [h, Call.isRunPhase]
  · have hdisp : dispatch env = runDirect env.runOutcome := by simp [dispatch, hm]
    rw [hdisp] at he
    rcases ho : env.runOutcome with _ | _ | w | _ <;> rw [ho] at he <;>
      simp [runDirect] at he <;> aesop

theorem precedes_frame (a b : Event) (P T E : List Event) (h : Precedes a b T) (hP : b ∉ P)
    (hE : b ∉ E) : Precedes a b (P ++ (T ++ E)) := by
  intro l1 l2 ht
  rcases List.append_eq_append_iff.mp ht with ⟨c, hc, hr⟩ | ⟨c, hc, hr⟩
  · rcases List.append_eq_append_iff.mp hr with ⟨c1, _, hr1⟩ | ⟨c1, hc1, hr1⟩
    · exact absurd (by simp [hr1]) hE
    · cases c1 with
      | nil => exact absurd (by simp at hr1; simp [← hr1]) hE
      | cons x xs =>
        simp only [List.cons_append, List.cons.injEq] at hr1
        have := h c xs (by rw [hc1, hr1.1])
        simp [hc, this]
  · cases c with
    | nil =>
      simp only [List.nil_append] at hr
      cases T with
      | nil => exact absurd (by simp at hr; simp [← hr]) hE
      | cons x xs =>
        simp only [List.cons_append, List.cons.injEq] at hr
        have := h [] xs (by simp [hr.1])
        simp at this
    | cons x xs =>
      simp only [List.cons_append, List.cons.injEq] at hr
      exact absurd (by simp [hc, hr.1]) hP

/-! ## The pieces of `main` -/

theorem startup_calls (env : Env) (hb : (startup env).2 = false) :
    (startup env).1
      = (if env.platform = Platform.Mac then [Call.createAutoreleasePool] else [])
        ++ [Call.logOpen] := by
  unfold startup unpackBundle at hb ⊢
  by_cases hp : env.platform = Platform.Mac
  · by_cases hi : env.inBundle = true
    · simp [hp, hi]
    · simp [hp, hi] at hb
  · simp [hp]

/-- The calls of `main` before the installer is run: they are all made by the main thread,
none of them is a call of the run phase but for the autorelease pool of line 92. -/
theorem prologue_vocabulary (env : Env) (hb : (startup env).2 = false) :
    ∀ c ∈ prologue env, c.isRunPhase = false ∨ c = Call.createAutoreleasePool := by
  intro c hc
  unfold prologue at hc
  rw [startup_calls env hb] at hc
  unfold loadScript configure at hc
  by_cases hp : env.platform = Platform.Mac <;> by_cases hs : env.options.scriptPath = "" <;>
    simp [hp, hs] at hc <;> aesop

theorem main_decomposition (env : Env) (hb : (startup env).2 = false)
    (hv : env.options.showVersion = false) :
    ∃ E : List Call, (∀ c ∈ E, c = Call.releaseAutoreleasePool) ∧
      (main env).trace
        = onThread Thread.main (prologue env) ++ ((dispatch env).1 ++ onThread Thread.main E) := by
  have h := (main_past_version env hb hv).1
  rcases hd : (dispatch env).2 with _ | _
  · refine ⟨epilogue env, ?_, ?_⟩
    · intro c hc
      unfold epilogue at hc
      split at hc <;> simp at hc
      exact hc
    · rw [h, hd]
      simp
  · refine ⟨[], by simp, ?_⟩
    rw [h, hd]
    simp [onThread]

/-- When the mode is not Main, running the installer is one call of `run` on the main
thread, followed by the abort if an exception leaves it. -/
theorem dispatch_direct (env : Env) (hm : env.options.mode ≠ Mode.Main) :
    (∀ e ∈ (dispatch env).1, e.1 = Thread.main ∧ (e.2 = Call.run ∨ e.2 = Call.abort)) ∧
      (dispatch env).1.count (Thread.main, Call.run) = 1 := by
  rcases ho : env.runOutcome with _ | _ | w | _ <;>
    simp [dispatch, hm, runDirect, ho, List.count_cons]

/-- In Main mode, running the installer is `runWithUi`. -/
theorem dispatch_main (env : Env) (hm : env.options.mode = Mode.Main) :
    dispatch env = runWithUi env := by
  simp [dispatch, hm]

theorem count_onThread_zero (t : Thread) (cs : List Call) (e : Event)
    (h : e.1 ≠ t ∨ e.2 ∉ cs) : (onThread t cs).count e = 0 := by
  apply List.count_eq_zero_of_not_mem
  rw [mem_onThread]
  tauto

theorem count_dispatch_zero (env : Env) (e : Event) (h : e.2.isRunPhase = false) :
    (dispatch env).1.count e = 0 := by
  apply List.count_eq_zero_of_not_mem
  intro he
  have := dispatch_vocabulary env e he
  simp [h] at this

/-- Running the installer is left by an exception exactly when `run` raises an exception
of a type not derived from `std::exception`, or raises any exception while called directly
by `main`. -/
theorem dispatch_escaped_iff (env : Env) :
    (dispatch env).2 = Completion.escaped ↔
      (env.runOutcome = RunOutcome.throwsOther ∨
        (env.options.mode ≠ Mode.Main ∧ ∃ w, env.runOutcome = RunOutcome.throwsStd w)) := by
  by_cases hm : env.options.mode = Mode.Main
  · obtain ⟨b, d, a, hr, hd, -, -, -, -⟩ := runWithUi_eq env
    obtain ⟨_, _, _, _, hc, _, _⟩ := withWorker_shape env b d a hd
    rw [dispatch_main env hm, hr, hc]
    rcases ho : env.runOutcome with _ | _ | w | _ <;>
      cases hp : env.platform <;> simp [runUpdaterThread, hm]
  · rcases ho : env.runOutcome with _ | _ | w | _ <;> simp [dispatch, hm, runDirect, ho]

/-! ## The claims -/

/-- C4. In every variant of `runWithUi` (Linux with GTK, Linux text fallback, Mac, Windows)
`setObserver` is called exactly once, on a dialog constructed before; that call comes before
the one start of the worker thread, every call of the worker comes after that start, `run` is
called once, on the worker, after `setObserver`; the dialog attached is destroyed only after
the join, and the join comes after every call of the worker. -/
theorem runWithUi_observer_before_worker (env : Env) :
    (runWithUi env).1.filter (fun e => e.2.isSetObserver)
        = [(Thread.main, Call.setObserver (observerOf env))] ∧
      Precedes (Thread.main, Call.dialogNew (observerOf env))
        (Thread.main, Call.setObserver (observerOf env)) (runWithUi env).1 ∧
      (runWithUi env).1.count (Thread.main, Call.threadStart) = 1 ∧
      (runWithUi env).1.count (Thread.worker, Call.threadStart) = 0 ∧
      Precedes (Thread.main, Call.setObserver (observerOf env))
        (Thread.main, Call.threadStart) (runWithUi env).1 ∧
      (∀ e ∈ (runWithUi env).1, e.1 = Thread.worker →
        Precedes (Thread.main, Call.threadStart) e (runWithUi env).1) ∧
      (runWithUi env).1.count (Thread.worker, Call.run) = 1 ∧
      (runWithUi env).1.count (Thread.main, Call.run) = 0 ∧
      (∀ th, Precedes (Thread.main, Call.setObserver (observerOf env))
        (th, Call.run) (runWithUi env).1) ∧
      Precedes (Thread.main, Call.threadJoin)
        (Thread.main, Call.dialogDelete (observerOf env)) (runWithUi env).1 ∧
      (∀ e ∈ (runWithUi env).1, e.1 = Thread.worker →
        Precedes e (Thread.main, Call.threadJoin) (runWithUi env).1) :=
  runWithUi_facts env


/-- C5, as stated, fails: in the Linux text fallback (GTK could not be initialised) the main
thread makes no call of `exec` at all; after starting the worker its next call is the
join. -/
theorem runWithUi_text_fallback_has_no_exec :
    (sampleEnv Platform.Linux (sampleOptions Mode.Main "" false) false none
        RunOutcome.success).options.mode = Mode.Main ∧
      callsOf Thread.main (runWithUi (sampleEnv Platform.Linux (sampleOptions Mode.Main "" false)
          false none RunOutcome.success)).1
        = [Call.dialogNew DialogKind.Ascii, Call.dialogNew DialogKind.Gtk, Call.gtkInit false,
            Call.dialogInit DialogKind.Ascii, Call.setObserver DialogKind.Ascii,
            Call.threadStart, Call.threadJoin, Call.dialogDelete DialogKind.Gtk,
            Call.dialogDelete DialogKind.Ascii] := by
  decide

/-- C5, as amended. In every variant of `runWithUi` that returns, the calls of the main thread
from the start of the worker on are: `exec` on the dialog when it is a native one (GTK, Cocoa,
Win32) and nothing in the Linux text fallback, then the join, then only destructors of the
local dialogs; every call of the worker comes before the join. When an exception leaves the
worker, `runWithUi` does not return and no join is made. In Main mode `main` returns exactly
when `runWithUi` does. -/
theorem runWithUi_exec_then_join (env : Env) :
    ∃ pre post : List Call,
      Call.threadStart ∉ pre ∧ (∀ c ∈ post, ∃ k, c = Call.dialogDelete k) ∧
      ((runWithUi env).2 = Completion.returned →
        callsOf Thread.main (runWithUi env).1
            = pre ++ Call.threadStart ::
                ((if observerOf env = DialogKind.Ascii then []
                  else [Call.dialogExec (observerOf env)]) ++ Call.threadJoin :: post) ∧
          ∀ e ∈ (runWithUi env).1, e.1 = Thread.worker →
            Precedes e (Thread.main, Call.threadJoin) (runWithUi env).1) ∧
      ((runWithUi env).2 = Completion.escaped →
        (Thread.main, Call.threadJoin) ∉ (runWithUi env).1) ∧
      (env.options.mode = Mode.Main → (startup env).2 = false →
        env.options.showVersion = false →
        ((main env).exit = some 0 ↔ (runWithUi env).2 = Completion.returned) ∧
        ((main env).exit = none ↔ (runWithUi env).2 = Completion.escaped)) := by
  obtain ⟨b, d, a, hr, hd, hb, ha, hdeq, -⟩ := runWithUi_eq env
  have ht := withWorker_threads env b d a hd
  have hf := runWithUi_facts env
  refine ⟨b, a, hb.1, ha, ?_, ?_, ?_⟩
  · intro hret
    refine ⟨?_, hf.2.2.2.2.2.2.2.2.2.2⟩
    rw [hr] at hret ⊢
    rw [ht.2.1 hret, hdeq]
  · intro hesc hmem
    rw [hr] at hesc hmem
    obtain ⟨d1, d2, hd12, hm⟩ := ht.2.2 hesc
    rw [← mem_callsOf, hm] at hmem
    have hj : Call.threadJoin ∉ d := by
      rw [hdeq]
      split <;> simp
    rcases List.mem_append.mp hmem with h | h
    · exact hb.2 h
    · rcases List.mem_cons.mp h with h | h
      · simp at h
      · exact hj (by rw [hd12]; simp [h])
  · intro hm hs hv
    have hmain := (main_past_version env hs hv).2
    have hdisp : dispatch env = runWithUi env := by simp [dispatch, hm]
    rw [hdisp] at hmain
    rw [hmain]
    cases (runWithUi env).2 <;> simp

/-- The amended C5 on Linux with GTK: the main thread starts the worker, runs the loop of
the GTK dialog, then joins. -/
theorem runWithUi_exec_then_join_witness :
    ∃ pre post : List Call,
      Call.threadStart ∉ pre ∧
        callsOf Thread.main (runWithUi (sampleEnv Platform.Linux
            (sampleOptions Mode.Main "" false) true none RunOutcome.success)).1
          = pre ++ Call.threadStart ::
              (Call.dialogExec DialogKind.Gtk :: Call.threadJoin :: post) :=
  (runWithUi_exec_then_join (sampleEnv Platform.Linux (sampleOptions Mode.Main "" false) true
      none RunOutcome.success)).imp
    (fun _ h => h.imp (fun _ hp => ⟨hp.1, (hp.2.2.1 rfl).1⟩))

/-- C6, as stated, fails: on Linux in Main mode, when GTK could not be initialised, `main`
starts a worker thread and `run` is called on that thread, not on the main thread. -/
theorem main_text_fallback_starts_worker :
    (main (sampleEnv Platform.Linux (sampleOptions Mode.Main "" false) false none
        RunOutcome.success)).trace.count (Thread.main, Call.threadStart) = 1 ∧
      (main (sampleEnv Platform.Linux (sampleOptions Mode.Main "" false) false none
        RunOutcome.success)).trace.count (Thread.worker, Call.run) = 1 ∧
      (main (sampleEnv Platform.Linux (sampleOptions Mode.Main "" false) false none
        RunOutcome.success)).trace.count (Thread.main, Call.run) = 0 := by
  simp [main, startup, sampleEnv, sampleOptions, dispatch, runWithUi, runWithUiLinux, withWorker,
    runUpdaterThread, prologue, epilogue, loadScript, configure, onThread, interleave,
    List.count_cons]


/-- C6, as amended. On Linux in Main mode, when GTK could not be initialised, the main thread
attaches the text dialog, starts a worker thread and then only joins it: it runs no UI loop
and does not call `run` itself; `run` is called once, on the worker. The main thread calls
`run` itself, once, with no worker thread and every call on the main thread, when the mode is
not Main. -/
theorem dispatch_text_fallback_and_helper (env : Env) :
    (env.options.mode = Mode.Main → env.platform = Platform.Linux → env.gtkInit = false →
      (dispatch env).1
          = onThread Thread.main
              [Call.dialogNew DialogKind.Ascii, Call.dialogNew DialogKind.Gtk,
                Call.gtkInit false, Call.dialogInit DialogKind.Ascii,
                Call.setObserver DialogKind.Ascii, Call.threadStart]
            ++ onThread Thread.worker (runUpdaterThread Platform.Linux env.runOutcome).1
            ++ (match (runUpdaterThread Platform.Linux env.runOutcome).2 with
                | Completion.returned =>
                    onThread Thread.main [Call.threadJoin, Call.dialogDelete DialogKind.Gtk,
                      Call.dialogDelete DialogKind.Ascii]
                | Completion.escaped => [(Thread.worker, Call.abort)]) ∧
        (runUpdaterThread Platform.Linux env.runOutcome).1.count Call.run = 1) ∧
      (env.options.mode ≠ Mode.Main →
        (∀ e ∈ (dispatch env).1, e.1 = Thread.main ∧ e.2 ≠ Call.threadStart) ∧
          (dispatch env).1.count (Thread.main, Call.run) = 1) := by
  constructor
  · intro hm hp hg
    rcases ho : env.runOutcome with _ | _ | w | _ <;>
      simp [dispatch, hm, runWithUi, runWithUiLinux, hp, hg, withWorker, runUpdaterThread, ho,
        interleave_nil_right, onThread, untilAbort, List.count_cons]
  · intro hm
    rcases ho : env.runOutcome with _ | _ | w | _ <;>
      simp [dispatch, hm, runDirect, ho, List.count_cons]

/-- The amended C6 at two invocations: the Linux text fallback in Main mode, and Helper
mode. -/
theorem dispatch_text_fallback_and_helper_witness :
    (dispatch (sampleEnv Platform.Linux (sampleOptions Mode.Main "" false) false none
        RunOutcome.success)).1
        = [(Thread.main, Call.dialogNew DialogKind.Ascii),
            (Thread.main, Call.dialogNew DialogKind.Gtk), (Thread.main, Call.gtkInit false),
            (Thread.main, Call.dialogInit DialogKind.Ascii),
            (Thread.main, Call.setObserver DialogKind.Ascii), (Thread.main, Call.threadStart),
            (Thread.worker, Call.run), (Thread.main, Call.threadJoin),
            (Thread.main, Call.dialogDelete DialogKind.Gtk),
            (Thread.main, Call.dialogDelete DialogKind.Ascii)] ∧
      (dispatch (sampleEnv Platform.Linux (sampleOptions Mode.Helper "" false) false none
        RunOutcome.success)).1.count (Thread.main, Call.run) = 1 :=
  ⟨((dispatch_text_fallback_and_helper (sampleEnv Platform.Linux
      (sampleOptions Mode.Main "" false) false none RunOutcome.success)).1 rfl rfl rfl).1,
    ((dispatch_text_fallback_and_helper (sampleEnv Platform.Linux
      (sampleOptions Mode.Helper "" false) false none RunOutcome.success)).2
        (by decide)).2⟩


/-- C3. In every invocation that goes past the bundle relaunch and the version query, one
`UpdateInstaller` is constructed and `run` is called exactly once. When the mode is not Main
that call is made by the main thread, every call of the process is made by the main thread,
no thread is started and no dialog or observer is involved. When the mode is Main the call
is made by the worker thread, after the one start of that thread, never by the main thread,
and the calls of the worker are those of `runUpdaterThread`. -/
theorem main_runs_installer_once (env : Env) (hb : (startup env).2 = false)
    (hv : env.options.showVersion = false) :
    (main env).trace.count (Thread.main, Call.installerNew) = 1 ∧
      (main env).trace.count (Thread.worker, Call.installerNew) = 0 ∧
      (env.options.mode ≠ Mode.Main →
        (main env).trace.count (Thread.main, Call.run) = 1 ∧
          ∀ e ∈ (main env).trace, e.1 = Thread.main ∧ e.2 ≠ Call.threadStart
            ∧ e.2.isDialogCall = false ∧ e.2.isSetObserver = false) ∧
      (env.options.mode = Mode.Main →
        (main env).trace.count (Thread.worker, Call.run) = 1 ∧
          (main env).trace.count (Thread.main, Call.run) = 0 ∧
          (main env).trace.count (Thread.main, Call.threadStart) = 1 ∧
          Precedes (Thread.main, Call.threadStart) (Thread.worker, Call.run) (main env).trace ∧
          callsOf Thread.worker (main env).trace
            = (runUpdaterThread env.platform env.runOutcome).1
              ++ (match (runUpdaterThread env.platform env.runOutcome).2 with
                  | Completion.returned => []
                  | Completion.escaped => [Call.abort])) := by
  obtain ⟨E, hE, hT⟩ := main_decomposition env hb hv
  have hP := prologue_vocabulary env hb
  have cP : ∀ e : Event, e.2.isRunPhase = true → e.2 ≠ Call.createAutoreleasePool →
      (onThread Thread.main (prologue env)).count e = 0 := by
    intro e h1 h2
    apply count_onThread_zero
    right
    intro hc
    rcases hP _ hc with h | h
    · simp [h1] at h
    · exact h2 h
  have cE : ∀ e : Event, e.2 ≠ Call.releaseAutoreleasePool →
      (onThread Thread.main E).count e = 0 := by
    intro e h
    apply count_onThread_zero
    right
    exact fun hc => h (hE _ hc)
  refine ⟨?_, ?_, ?_, ?_⟩
  · rw [hT]
    simp only [List.count_append]
    rw [count_dispatch_zero env (Thread.main, Call.installerNew) rfl, cE _ (by simp)]
    unfold prologue loadScript configure
    rw [startup_calls env hb]
    by_cases hp : env.platform = Platform.Mac <;> by_cases hs : env.options.scriptPath = "" <;>
      simp [hp, hs, onThread, List.count_cons]
  · rw [hT]
    simp only [List.count_append]
    rw [count_dispatch_zero env (Thread.worker, Call.installerNew) rfl, cE _ (by simp),
      count_onThread_zero _ _ _ (Or.inl (by decide))]
  · intro hm
    have hd := dispatch_direct env hm
    refine ⟨?_, ?_⟩
    · rw [hT]
      simp only [List.count_append]
      rw [cP (Thread.main, Call.run) rfl (by simp), cE _ (by simp), hd.2]
    · intro e he
      rw [hT] at he
      simp only [List.mem_append, mem_onThread] at he
      rcases he with ⟨h1, h2⟩ | h | ⟨h1, h2⟩
      · refine ⟨h1, ?_⟩
        rcases hP _ h2 with h | h
        · generalize e.2 = c at h
          cases c <;> simp [Call.isRunPhase, Call.isDialogCall, Call.isSetObserver] at h ⊢
        · simp [h, Call.isDialogCall, Call.isSetObserver]
      · refine ⟨(hd.1 e h).1, ?_⟩
        rcases (hd.1 e h).2 with h | h <;> simp [h, Call.isDialogCall, Call.isSetObserver]
      · exact ⟨h1, by simp [hE _ h2, Call.isDialogCall, Call.isSetObserver]⟩
  · intro hm
    have hf := runWithUi_facts env
    rw [← dispatch_main env hm] at hf
    obtain ⟨-, -, hst, -, -, hpre, hwr, hmr, -, -, -⟩ := hf
    refine ⟨?_, ?_, ?_, ?_, ?_⟩
    · rw [hT]
      simp only [List.count_append]
      rw [hwr, cE _ (by simp), count_onThread_zero _ _ _ (Or.inl (by decide))]
    · rw [hT]
      simp only [List.count_append]
      rw [hmr, cE _ (by simp), cP (Thread.main, Call.run) rfl (by simp)]
    · rw [hT]
      simp only [List.count_append]
      rw [hst, cE _ (by simp), cP (Thread.main, Call.threadStart) rfl (by simp)]
    · rw [hT]
      apply precedes_frame
      · exact hpre _ (List.count_pos_iff.mp (by rw [hwr]; decide)) rfl
      · simp [mem_onThread]
      · simp [mem_onThread]
    · rw [hT]
      simp only [callsOf_append, callsOf_onThread_other Thread.worker Thread.main _ (by decide)]
      obtain ⟨b, d, a, hr, hd, -, -, -, -⟩ := runWithUi_eq env
      obtain ⟨_, _, _, _, hc, _, _⟩ := withWorker_shape env b d a hd
      rw [dispatch_main env hm, hr, (withWorker_threads env b d a hd).1, hc]
      simp


/-- C3 at a Linux invocation in Main mode with GTK: `run` is called once, by the worker. -/
theorem main_runs_installer_once_witness :
    (startup (sampleEnv Platform.Linux (sampleOptions Mode.Main "" false) true none
        RunOutcome.success)).2 = false ∧
      (sampleEnv Platform.Linux (sampleOptions Mode.Main "" false) true none
        RunOutcome.success).options.showVersion = false ∧
      (main (sampleEnv Platform.Linux (sampleOptions Mode.Main "" false) true none
        RunOutcome.success)).trace.count (Thread.worker, Call.run) = 1 :=
  ⟨rfl, rfl,
    ((main_runs_installer_once (sampleEnv Platform.Linux (sampleOptions Mode.Main "" false)
      true none RunOutcome.success) rfl rfl).2.2.2 rfl).1⟩

/-- C10, as stated, fails: when `run` raises an exception of a type not derived from
`std::exception`, the Mac build of `runUpdaterThread` is left by that exception after two
calls, the acquisition of the pool and `run`; the pool is not released. -/
theorem runUpdaterThread_pool_not_released :
    runUpdaterThread Platform.Mac RunOutcome.throwsOther
        = ([Call.createAutoreleasePool, Call.run], Completion.escaped) ∧
      (runUpdaterThread Platform.Mac RunOutcome.throwsOther).1.count
        Call.releaseAutoreleasePool = 0 := by
  decide

/-- C10, as amended. In the Mac build of `runUpdaterThread`, whenever `run` returns or raises
an exception of a class derived from `std::exception`, the function returns, its first call
acquires the pool, its last call releases it, and between the two lies the one call of `run`
(with the log line of the handler) and no other acquisition or release. -/
theorem runUpdaterThread_pool_released (o : RunOutcome) (h : o ≠ RunOutcome.throwsOther) :
    ∃ mid : List Call,
      runUpdaterThread Platform.Mac o
          = (Call.createAutoreleasePool :: (mid ++ [Call.releaseAutoreleasePool]),
              Completion.returned) ∧
        mid.count Call.run = 1 ∧ Call.createAutoreleasePool ∉ mid ∧
        Call.releaseAutoreleasePool ∉ mid := by
  cases o with
  | success => exact ⟨[Call.run], by simp [runUpdaterThread]⟩
  | failure => exact ⟨[Call.run], by simp [runUpdaterThread]⟩
  | throwsStd w =>
    exact ⟨[Call.run, Call.logError ("Unexpected exception " ++ w)],
      by simp [runUpdaterThread, List.count_cons]⟩
  | throwsOther => exact absurd rfl h

/-- The amended C10 when `run` raises a `std::exception`. -/
theorem runUpdaterThread_pool_released_witness :
    RunOutcome.throwsStd "disk full" ≠ RunOutcome.throwsOther ∧
      ∃ mid : List Call,
        runUpdaterThread Platform.Mac (RunOutcome.throwsStd "disk full")
            = (Call.createAutoreleasePool :: (mid ++ [Call.releaseAutoreleasePool]),
                Completion.returned) ∧
          mid.count Call.run = 1 ∧ Call.createAutoreleasePool ∉ mid ∧
          Call.releaseAutoreleasePool ∉ mid :=
  ⟨by decide, runUpdaterThread_pool_released (RunOutcome.throwsStd "disk full") (by decide)⟩


/-- C1, as stated, fails: `main` returns 0 when the manifest does not parse and `run` reports
failure (Helper mode), and when a `std::exception` leaves `run` on the worker (Main mode). -/
theorem main_returns_zero_on_failure :
    (main (sampleEnv Platform.Linux (sampleOptions Mode.Helper "file_list.xml" false) true
        (some ScriptParseError.InvalidPath) RunOutcome.failure)).exit = some 0 ∧
      (main (sampleEnv Platform.Linux (sampleOptions Mode.Main "" false) true none
        (RunOutcome.throwsStd "disk full"))).exit = some 0 := by
  decide

/-- C1, as amended. `main` never returns a value other than 0. It returns, and returns 0, on
every run but those ended by an uncaught exception, which are the runs past the bundle
relaunch and the version query in which `run` raises an exception of a type not derived
from `std::exception`, or raises any exception while called directly by `main` (mode not
Main). In particular it returns 0 when `run` reports failure and when a `std::exception`
leaves `run` on the worker, whatever the parsing of the manifest gave. -/
theorem main_exit_code (env : Env) :
    (∀ c, (main env).exit = some c → c = 0) ∧
      ((main env).exit = none ↔
        ((startup env).2 = false ∧ env.options.showVersion = false ∧
          (env.runOutcome = RunOutcome.throwsOther ∨
            (env.options.mode ≠ Mode.Main ∧ ∃ w, env.runOutcome = RunOutcome.throwsStd w)))) ∧
      ((env.runOutcome = RunOutcome.success ∨ env.runOutcome = RunOutcome.failure ∨
          (env.options.mode = Mode.Main ∧ ∃ w, env.runOutcome = RunOutcome.throwsStd w)) →
        (main env).exit = some 0) := by
  have key : (main env).exit = none ↔
      ((startup env).2 = false ∧ env.options.showVersion = false ∧
        (env.runOutcome = RunOutcome.throwsOther ∨
          (env.options.mode ≠ Mode.Main ∧ ∃ w, env.runOutcome = RunOutcome.throwsStd w))) := by
    rw [← dispatch_escaped_iff]
    by_cases hb : (startup env).2 = false
    · by_cases hv : env.options.showVersion = false
      · rw [(main_past_version env hb hv).2]
        cases (dispatch env).2 <;> simp [hb, hv]
      · simp [main, hb, hv]
    · simp [main, hb]
  have zero : ∀ c, (main env).exit = some c → c = 0 := by
    intro c hc
    by_cases hb : (startup env).2 = false
    · by_cases hv : env.options.showVersion = false
      · rw [(main_past_version env hb hv).2] at hc
        cases hd : (dispatch env).2 <;> rw [hd] at hc <;> simp at hc
        exact hc.symm
      · simp [main, hb, hv] at hc
        exact hc.symm
    · simp [main, hb] at hc
      exact hc.symm
  refine ⟨zero, key, ?_⟩
  intro h
  rcases hx : (main env).exit with _ | c
  · obtain ⟨-, -, h1 | ⟨h1, w, h2⟩⟩ := key.mp hx
    · rcases h with h | h | ⟨-, w, h⟩ <;> rw [h1] at h <;> simp at h
    · rcases h with h | h | ⟨hm, -⟩
      · rw [h2] at h
        simp at h
      · rw [h2] at h
        simp at h
      · exact absurd hm h1
  · rw [zero c hx]

/-- The amended C1 when `run` reports failure in Helper mode after a manifest that did not
parse. -/
theorem main_exit_code_witness :
    (sampleEnv Platform.Linux (sampleOptions Mode.Helper "file_list.xml" false) true
        (some ScriptParseError.InvalidPath) RunOutcome.failure).runOutcome = RunOutcome.failure ∧
      (main (sampleEnv Platform.Linux (sampleOptions Mode.Helper "file_list.xml" false) true
        (some ScriptParseError.InvalidPath) RunOutcome.failure)).exit = some 0 :=
  ⟨rfl, (main_exit_code (sampleEnv Platform.Linux
    (sampleOptions Mode.Helper "file_list.xml" false) true
    (some ScriptParseError.InvalidPath) RunOutcome.failure)).2.2 (Or.inr (Or.inl rfl))⟩


/-- C2, as stated, fails: with a manifest rejected for an invalid path, `main` still hands
the script to the installer and calls `run`. -/
theorem main_runs_after_invalid_manifest :
    (sampleEnv Platform.Linux (sampleOptions Mode.Helper "file_list.xml" false) true
        (some ScriptParseError.InvalidPath) RunOutcome.failure).options.scriptPath ≠ "" ∧
      (Thread.main, Call.scriptParse "/tmp/pkg/file_list.xml")
        ∈ (main (sampleEnv Platform.Linux (sampleOptions Mode.Helper "file_list.xml" false) true
            (some ScriptParseError.InvalidPath) RunOutcome.failure)).trace ∧
      (Thread.main, Call.setScript (ScriptState.parsed "/tmp/pkg/file_list.xml"
          (some ScriptParseError.InvalidPath)))
        ∈ (main (sampleEnv Platform.Linux (sampleOptions Mode.Helper "file_list.xml" false) true
            (some ScriptParseError.InvalidPath) RunOutcome.failure)).trace ∧
      (Thread.main, Call.run)
        ∈ (main (sampleEnv Platform.Linux (sampleOptions Mode.Helper "file_list.xml" false) true
            (some ScriptParseError.InvalidPath) RunOutcome.failure)).trace := by
  simp [main, startup, sampleEnv, sampleOptions, dispatch, runDirect, prologue, epilogue,
    loadScript, configure, onThread]

/-- C2, as amended. In every invocation past the bundle relaunch and the version query with
a script path that is not empty, `main` does not look at what `parse` found: when the
manifest is rejected, `parse` has been called once, the script in the state `parse` left it
in is handed to the installer, and `run` is still called exactly once, after the parse, by
the main thread when the mode is not Main and by the worker when it is. -/
theorem main_runs_whatever_parse_found (env : Env) (hb : (startup env).2 = false)
    (hv : env.options.showVersion = false) (hs : env.options.scriptPath ≠ "")
    (err : ScriptParseError)
    (he : env.parseManifest (env.makeAbsolute env.options.scriptPath env.options.packageDir)
      = some err) :
    (main env).trace.count
        (Thread.main,
          Call.scriptParse (env.makeAbsolute env.options.scriptPath env.options.packageDir))
        = 1 ∧
      (main env).trace.count
        (Thread.main,
          Call.setScript (ScriptState.parsed
            (env.makeAbsolute env.options.scriptPath env.options.packageDir) (some err)))
        = 1 ∧
      (main env).trace.count (Thread.main, Call.run)
        = (if env.options.mode = Mode.Main then 0 else 1) ∧
      (main env).trace.count (Thread.worker, Call.run)
        = (if env.options.mode = Mode.Main then 1 else 0) ∧
      ∀ th, Precedes
        (Thread.main,
          Call.scriptParse (env.makeAbsolute env.options.scriptPath env.options.packageDir))
        (th, Call.run) (main env).trace := by
  obtain ⟨E, hE, hT⟩ := main_decomposition env hb hv
  have hP := prologue_vocabulary env hb
  have cE : ∀ e : Event, e.2 ≠ Call.releaseAutoreleasePool →
      (onThread Thread.main E).count e = 0 := by
    intro e h
    apply count_onThread_zero
    right
    exact fun hc => h (hE _ hc)
  have cPrun : ∀ th, (onThread Thread.main (prologue env)).count (th, Call.run) = 0 := by
    intro th
    apply count_onThread_zero
    right
    intro hc
    rcases hP _ hc with h | h <;> simp [Call.isRunPhase] at h
  have hpro : prologue env
      = (if env.platform = Platform.Mac then [Call.createAutoreleasePool] else [])
        ++ [Call.logOpen, Call.optionsParse, Call.installerNew, Call.scriptNew,
          Call.scriptParse (env.makeAbsolute env.options.scriptPath env.options.packageDir),
          Call.logInfo (startedMessage env), Call.setMode env.options.mode,
          Call.setInstallDir env.options.installDir, Call.setPackageDir env.options.packageDir,
          Call.setScript (ScriptState.parsed
            (env.makeAbsolute env.options.scriptPath env.options.packageDir) (some err)),
          Call.setWaitPid env.options.waitPid,
          Call.setForceElevated env.options.forceElevated] := by
    unfold prologue loadScript configure
    rw [startup_calls env hb]
    simp [hs, he]
  refine ⟨?_, ?_, ?_, ?_, ?_⟩
  · rw [hT]
    simp only [List.count_append]
    rw [count_dispatch_zero env (Thread.main, Call.scriptParse _) rfl, cE _ (by simp), hpro]
    by_cases hp : env.platform = Platform.Mac <;> simp [hp, onThread, List.count_cons]
  · rw [hT]
    simp only [List.count_append]
    rw [count_dispatch_zero env (Thread.main, Call.setScript _) rfl, cE _ (by simp), hpro]
    by_cases hp : env.platform = Platform.Mac <;> simp [hp, onThread, List.count_cons]
  · rw [hT]
    simp only [List.count_append]
    rw [cPrun, cE _ (by simp)]
    by_cases hm : env.options.mode = Mode.Main
    · have hf := runWithUi_facts env
      rw [← dispatch_main env hm] at hf
      simp [hm, hf.2.2.2.2.2.2.2.1]
    · simp [hm, (dispatch_direct env hm).2]
  · rw [hT]
    simp only [List.count_append]
    rw [cPrun, cE _ (by simp)]
    by_cases hm : env.options.mode = Mode.Main
    · have hf := runWithUi_facts env
      rw [← dispatch_main env hm] at hf
      simp [hm, hf.2.2.2.2.2.2.1]
    · have hz : (dispatch env).1.count (Thread.worker, Call.run) = 0 := by
        apply List.count_eq_zero_of_not_mem
        intro hmem
        have := ((dispatch_direct env hm).1 _ hmem).1
        simp at this
      simp [hm, hz]
  · intro th
    refine precedes_split _ _ _ (onThread Thread.main (prologue env)) _ hT ?_ ?_
    · rw [mem_onThread, hpro]
      simp
    · intro hmem
      have := cPrun th
      rw [List.count_eq_zero] at this
      exact this hmem

/-- The amended C2 at a Helper-mode invocation whose manifest is rejected for an invalid
path. -/
theorem main_runs_whatever_parse_found_witness :
    (startup (sampleEnv Platform.Linux (sampleOptions Mode.Helper "file_list.xml" false) true
        (some ScriptParseError.InvalidPath) RunOutcome.failure)).2 = false ∧
      (main (sampleEnv Platform.Linux (sampleOptions Mode.Helper "file_list.xml" false) true
        (some ScriptParseError.InvalidPath) RunOutcome.failure)).trace.count
          (Thread.main, Call.run) = 1 :=
  ⟨rfl, (main_runs_whatever_parse_found (sampleEnv Platform.Linux
      (sampleOptions Mode.Helper "file_list.xml" false) true
      (some ScriptParseError.InvalidPath) RunOutcome.failure) rfl rfl (by decide)
      ScriptParseError.InvalidPath rfl).2.2.1⟩


/-- C7. In every run of `main` that reaches line 115, where the installer is constructed:
when the script path is empty `parse` is never called and the installer is handed the
default-constructed script; when it is not empty `parse` is called exactly once, by the main
thread, on `FileUtils::makeAbsolute(scriptPath, packageDir)`, and the installer is handed
the script as that call left it; `setScript` is called exactly once either way. With
`makeAbsolute` resolving as the spec has it, a relative script path that is not empty is
parsed at the package directory followed by `/` and the script path, and a script path that
is not relative is parsed as it is given. -/
theorem main_parses_iff_script_path (env : Env) (isRelative : String → Bool)
    (hreach : (Thread.main, Call.installerNew) ∈ (main env).trace)
    (hspec : ∀ path basePath,
      env.makeAbsolute path basePath = FileUtils.makeAbsolute isRelative path basePath) :
    (main env).trace.filter (fun e => e.2.isScriptParse)
        = (if env.options.scriptPath = "" then []
          else [(Thread.main,
            Call.scriptParse
              (env.makeAbsolute env.options.scriptPath env.options.packageDir))]) ∧
      (main env).trace.filter (fun e => e.2.isSetScript)
        = [(Thread.main,
            Call.setScript
              (if env.options.scriptPath = "" then ScriptState.defaultConstructed
              else ScriptState.parsed
                (env.makeAbsolute env.options.scriptPath env.options.packageDir)
                (env.parseManifest
                  (env.makeAbsolute env.options.scriptPath env.options.packageDir))))] ∧
      (env.options.scriptPath ≠ "" → isRelative env.options.scriptPath = true →
        (main env).trace.filter (fun e => e.2.isScriptParse)
          = [(Thread.main,
              Call.scriptParse (env.options.packageDir ++ "/" ++ env.options.scriptPath))]) ∧
      (env.options.scriptPath ≠ "" → isRelative env.options.scriptPath = false →
        (main env).trace.filter (fun e => e.2.isScriptParse)
          = [(Thread.main, Call.scriptParse env.options.scriptPath)]) := by
  have hb : (startup env).2 = false := by
    by_contra hne
    have ht : (startup env).2 = true := by simpa using hne
    have htr : (main env).trace = onThread Thread.main (startup env).1 := by
      simp [main, ht]
    rw [htr, mem_onThread] at hreach
    unfold startup unpackBundle at hreach ht
    by_cases hm : env.platform = Platform.Mac <;> by_cases hi : env.inBundle = true <;>
      simp [hm, hi] at hreach ht
  have hv : env.options.showVersion = false := by
    by_contra hne
    have ht : env.options.showVersion = true := by simpa using hne
    have htr : (main env).trace = onThread Thread.main ((startup env).1
        ++ [Call.optionsParse, Call.print ("Update installer version " ++ UPDATER_VERSION)]) := by
      simp [main, hb, ht]
    rw [htr, mem_onThread, startup_calls env hb] at hreach
    by_cases hm : env.platform = Platform.Mac <;> simp [hm] at hreach
  obtain ⟨E, hE, hT⟩ := main_decomposition env hb hv
  have fnil : ∀ (p : Event → Bool) (l : List Event), (∀ e ∈ l, p e = false) →
      l.filter p = [] := by
    intro p l h
    simpa [List.filter_eq_nil_iff] using h
  have hvoc : ∀ c : Call, c.isRunPhase = true → c.isScriptParse = false ∧ c.isSetScript = false := by
    intro c
    cases c <;> simp [Call.isRunPhase, Call.isScriptParse, Call.isSetScript]
  have hEn : ∀ e ∈ onThread Thread.main E, e.2.isScriptParse = false ∧ e.2.isSetScript = false := by
    intro e he
    rw [mem_onThread] at he
    rw [hE _ he.2]
    exact ⟨rfl, rfl⟩
  have hD := dispatch_vocabulary env
  have hparse : (main env).trace.filter (fun e => e.2.isScriptParse)
      = (if env.options.scriptPath = "" then []
        else [(Thread.main,
          Call.scriptParse
            (env.makeAbsolute env.options.scriptPath env.options.packageDir))]) := by
    rw [hT]
    simp only [List.filter_append]
    rw [fnil _ (dispatch env).1 (fun e he => (hvoc _ (hD e he)).1),
      fnil _ _ (fun e he => (hEn e he).1)]
    unfold prologue loadScript configure
    rw [startup_calls env hb]
    by_cases hp : env.platform = Platform.Mac <;> by_cases hs : env.options.scriptPath = "" <;>
      simp [hp, hs, onThread, List.filter_cons, Call.isScriptParse]
  have hset : (main env).trace.filter (fun e => e.2.isSetScript)
      = [(Thread.main,
          Call.setScript
            (if env.options.scriptPath = "" then ScriptState.defaultConstructed
            else ScriptState.parsed
              (env.makeAbsolute env.options.scriptPath env.options.packageDir)
              (env.parseManifest
                (env.makeAbsolute env.options.scriptPath env.options.packageDir))))] := by
    rw [hT]
    simp only [List.filter_append]
    rw [fnil _ (dispatch env).1 (fun e he => (hvoc _ (hD e he)).2),
      fnil _ _ (fun e he => (hEn e he).2)]
    unfold prologue loadScript configure
    rw [startup_calls env hb]
    by_cases hp : env.platform = Platform.Mac <;> by_cases hs : env.options.scriptPath = "" <;>
      simp [hp, hs, onThread, List.filter_cons, Call.isSetScript]
  refine ⟨hparse, hset, ?_, ?_⟩
  · intro hs hrel
    rw [hparse, hspec]
    simp [hs, FileUtils.makeAbsolute, hrel]
  · intro hs hrel
    rw [hparse, hspec]
    simp [hs, FileUtils.makeAbsolute, hrel]

/-- C7 at a Helper-mode invocation on Linux with the relative script path `file_list.xml`
and the package directory `/tmp/pkg`: the manifest parsed is `/tmp/pkg/file_list.xml`. -/
theorem main_parses_iff_script_path_witness :
    (Thread.main, Call.installerNew) ∈ (main scriptEnv).trace ∧
      (∀ path basePath,
        scriptEnv.makeAbsolute path basePath
          = FileUtils.makeAbsolute unixRelative path basePath) ∧
      scriptEnv.options.scriptPath ≠ "" ∧
      unixRelative scriptEnv.options.scriptPath = true ∧
      (main scriptEnv).trace.filter (fun e => e.2.isScriptParse)
        = [(Thread.main, Call.scriptParse "/tmp/pkg/file_list.xml")] :=
  have hreach : (Thread.main, Call.installerNew) ∈ (main scriptEnv).trace := by decide
  ⟨hreach, fun _ _ => rfl, by decide, by decide,
    (main_parses_iff_script_path scriptEnv unixRelative hreach (fun _ _ => rfl)).2.2.1
      (by decide) (by decide)⟩

/-- C8. In every invocation whose options have been parsed and have `showVersion` set,
`main` prints `Update installer version 0.6` and returns 0; its only other calls are the
opening of the log, the parsing of the options and, on Mac, the acquisition of the pool,
all on the main thread: no installer or script is constructed, nothing is parsed or set, no
dialog, observer or thread is created and `run` is not called. -/
theorem main_version_query (env : Env) (hv : env.options.showVersion = true)
    (hp : (Thread.main, Call.optionsParse) ∈ (main env).trace) :
    (main env).trace
        = onThread Thread.main
          ((if env.platform = Platform.Mac then [Call.createAutoreleasePool] else [])
            ++ [Call.logOpen, Call.optionsParse, Call.print "Update installer version 0.6"]) ∧
      (main env).exit = some 0 ∧
      ∀ e ∈ (main env).trace,
        e.1 = Thread.main ∧ e.2 ≠ Call.installerNew ∧ e.2 ≠ Call.scriptNew
          ∧ e.2.isScriptParse = false ∧ e.2.isConfigure = false ∧ e.2.isSetObserver = false
          ∧ e.2.isDialogCall = false ∧ e.2 ≠ Call.threadStart ∧ e.2 ≠ Call.run := by
  have hb : (startup env).2 = false := by
    by_contra hne
    have ht : (startup env).2 = true := by simpa using hne
    have htr : (main env).trace = onThread Thread.main (startup env).1 := by
      simp [main, ht]
    rw [htr, mem_onThread] at hp
    unfold startup unpackBundle at hp ht
    by_cases hm : env.platform = Platform.Mac <;> by_cases hi : env.inBundle = true <;>
      simp [hm, hi] at hp ht
  have htr : (main env).trace
      = onThread Thread.main
        ((if env.platform = Platform.Mac then [Call.createAutoreleasePool] else [])
          ++ [Call.logOpen, Call.optionsParse, Call.print "Update installer version 0.6"]) := by
    have hver : "Update installer version " ++ UPDATER_VERSION = "Update installer version 0.6" := by
      decide
    simp [main, hb, hv, startup_calls env hb, hver]
  refine ⟨htr, by simp [main, hb, hv], ?_⟩
  intro e he
  rw [htr, mem_onThread] at he
  refine ⟨he.1, ?_⟩
  have h2 := he.2
  by_cases hm : env.platform = Platform.Mac
  · simp [hm] at h2
    rcases h2 with h | h | h | h <;>
      simp [h, Call.isScriptParse, Call.isConfigure, Call.isSetObserver, Call.isDialogCall]
  · simp [hm] at h2
    rcases h2 with h | h | h <;>
      simp [h, Call.isScriptParse, Call.isConfigure, Call.isSetObserver, Call.isDialogCall]

/-- C8 at a version query on Linux. -/
theorem main_version_query_witness :
    (sampleEnv Platform.Linux (sampleOptions Mode.Main "" true) true none
        RunOutcome.success).options.showVersion = true ∧
      (main (sampleEnv Platform.Linux (sampleOptions Mode.Main "" true) true none
        RunOutcome.success)).trace
        = [(Thread.main, Call.logOpen), (Thread.main, Call.optionsParse),
            (Thread.main, Call.print "Update installer version 0.6")] ∧
      (main (sampleEnv Platform.Linux (sampleOptions Mode.Main "" true) true none
        RunOutcome.success)).exit = some 0 :=
  ⟨rfl, (main_version_query (sampleEnv Platform.Linux (sampleOptions Mode.Main "" true) true
      none RunOutcome.success) rfl (by decide)).1,
    (main_version_query (sampleEnv Platform.Linux (sampleOptions Mode.Main "" true) true
      none RunOutcome.success) rfl (by decide)).2.1⟩


/-- C9. On every run of `main` in which `run` is called, in either mode, the trace splits
into the calls of `main` up to line 134, all by the main thread, and the rest. The first part
contains each of the six setters exactly once, in the order of the source, with the mode,
the install directory, the package directory, the wait-pid and the force-elevated flag of
the parsed options and with the script object of `main`, and it contains no call of `run`
and no start of a thread. The rest, in which `run` is called, contains none of the six
setters. -/
theorem main_configures_before_run (env : Env)
    (h : ∃ th, (th, Call.run) ∈ (main env).trace) :
    ∃ post : List Event,
      (main env).trace = onThread Thread.main (prologue env) ++ post ∧
        (prologue env).filter (fun c => c.isConfigure)
          = [Call.setMode env.options.mode, Call.setInstallDir env.options.installDir,
              Call.setPackageDir env.options.packageDir, Call.setScript (loadScript env).2,
              Call.setWaitPid env.options.waitPid,
              Call.setForceElevated env.options.forceElevated] ∧
        (∀ c ∈ prologue env, c ≠ Call.run ∧ c ≠ Call.threadStart) ∧
        (∀ e ∈ post, e.2.isConfigure = false) ∧
        (∃ th, (th, Call.run) ∈ post) := by
  obtain ⟨th, hth⟩ := h
  have hb : (startup env).2 = false := by
    by_contra hne
    have ht : (startup env).2 = true := by simpa using hne
    have htr : (main env).trace = onThread Thread.main (startup env).1 := by
      simp [main, ht]
    rw [htr, mem_onThread] at hth
    unfold startup unpackBundle at hth ht
    by_cases hm : env.platform = Platform.Mac <;> by_cases hi : env.inBundle = true <;>
      simp [hm, hi] at hth ht
  have hv : env.options.showVersion = false := by
    by_contra hne
    have ht : env.options.showVersion = true := by simpa using hne
    have htr : (main env).trace = onThread Thread.main ((startup env).1
        ++ [Call.optionsParse, Call.print ("Update installer version " ++ UPDATER_VERSION)]) := by
      simp [main, hb, ht]
    rw [htr, mem_onThread, startup_calls env hb] at hth
    by_cases hm : env.platform = Platform.Mac <;> simp [hm] at hth
  obtain ⟨E, hE, hT⟩ := main_decomposition env hb hv
  have hP := prologue_vocabulary env hb
  have hPn : ∀ c ∈ prologue env, c ≠ Call.run ∧ c ≠ Call.threadStart := by
    intro c hc
    rcases hP c hc with h | h
    · constructor <;> intro hx <;> rw [hx] at h <;> simp [Call.isRunPhase] at h
    · simp [h]
  refine ⟨(dispatch env).1 ++ onThread Thread.main E, hT, ?_, hPn, ?_, ?_⟩
  · unfold prologue loadScript configure
    rw [startup_calls env hb]
    by_cases hp : env.platform = Platform.Mac <;> by_cases hs : env.options.scriptPath = "" <;>
      simp [hp, hs, List.filter_cons, Call.isConfigure]
  · intro e he
    rcases List.mem_append.mp he with h | h
    · have := dispatch_vocabulary env e h
      generalize e.2 = c at this
      cases c <;> simp [Call.isRunPhase, Call.isConfigure] at this ⊢
    · rw [mem_onThread] at h
      rw [hE _ h.2]
      rfl
  · refine ⟨th, ?_⟩
    rw [hT] at hth
    rcases List.mem_append.mp hth with h | h
    · rw [mem_onThread] at h
      exact absurd rfl (hPn _ h.2).1
    · exact h

/-- C9 at a Helper-mode invocation on Linux. -/
theorem main_configures_before_run_witness :
    (∃ th, (th, Call.run) ∈ (main (sampleEnv Platform.Linux
        (sampleOptions Mode.Helper "file_list.xml" false) true none RunOutcome.success)).trace) ∧
      ∃ post : List Event,
        (main (sampleEnv Platform.Linux (sampleOptions Mode.Helper "file_list.xml" false) true
            none RunOutcome.success)).trace
          = onThread Thread.main (prologue (sampleEnv Platform.Linux
              (sampleOptions Mode.Helper "file_list.xml" false) true none RunOutcome.success))
            ++ post ∧
          (prologue (sampleEnv Platform.Linux (sampleOptions Mode.Helper "file_list.xml" false)
              true none RunOutcome.success)).filter (fun c => c.isConfigure)
            = [Call.setMode Mode.Helper, Call.setInstallDir "/opt/app",
                Call.setPackageDir "/tmp/pkg",
                Call.setScript (ScriptState.parsed "/tmp/pkg/file_list.xml" none),
                Call.setWaitPid 1234, Call.setForceElevated false] :=
  have hrun : ∃ th, (th, Call.run) ∈ (main (sampleEnv Platform.Linux
      (sampleOptions Mode.Helper "file_list.xml" false) true none RunOutcome.success)).trace :=
    ⟨Thread.main, by
      simp [main, startup, sampleEnv, sampleOptions, dispatch, runDirect, prologue, epilogue,
        loadScript, configure, onThread]⟩
  ⟨hrun, (main_configures_before_run _ hrun).imp (fun _ hp => ⟨hp.1, hp.2.1⟩)⟩

end Updater
